import Mathlib

/-!
Verification of the Degenter backend (AMM indexer) core against its
natural-language specification.

The JavaScript source is shallowly embedded: pure fragments become Lean
functions, database/side-effecting fragments become explicit state passing,
JS numbers on the data paths we verify are exact rationals (`ℚ`), raw
on-chain amounts are digit strings validated exactly as the source does,
and nullable JS values are `Option`.

Sections, in order:
* JS value helpers (truthiness, `||`, digit validation, string→number);
* OHLCV aggregator `getCandles` (api/util/ohlcv-agg.js) — claims C1, C9;
* swap-route pool ranking (api/routes/swap.js) — claim C2;
* swap reserve-encoding resolution (core/block-processor.js) — claim C3;
* OHLCV 1-minute emission rule (core/block-processor.js) — claim C4;
* `create_pair` resolution (core/block-processor.js) — claim C5;
* per-transaction backpressure flushing (core/block-processor.js) — claim C6;
* `runWithConcurrency` worker pool (core/block-processor.js) — claim C7;
* `getPoolCached` pool-directory cache (core/block-processor.js) — claim C8;
* `refreshHoldersOnce` page transaction (jobs/holders-refresher.js) — claim C10.
-/

namespace Degenter

/-! ## JS value helpers -/

/-- JS truthiness of a nullable string: `null`/`undefined` and the empty
string are falsy, every other string is truthy. -/
def jsTruthy : Option String → Bool
  | none => false
  | some s => s ≠ ""

/-- JS `a || b` on nullable strings (returns `b` when `a` is falsy). -/
def jsOr (a b : Option String) : Option String :=
  if jsTruthy a then a else b

/-- JS `a ?? b` on nullable strings (returns `b` only when `a` is null). -/
def jsNullish (a b : Option String) : Option String :=
  match a with
  | some s => some s
  | none => b

/-- Whether a string is a nonempty run of ASCII digits — the regex
`/^\d+$/` used by `digitsOrNull`. -/
def isDigitString (s : String) : Bool :=
  s ≠ "" && s.toList.all (fun c => c.isDigit)

/-- `digitsOrNull` from the source (holders-refresher.js and core/parse.js):
keep a digit-only string, anything else (including null and the empty
string, since `String(undefined)`/`String(null)`/`''` fail `/^\d+$/`)
becomes null. -/
def digitsOrNull : Option String → Option String
  | none => none
  | some s => if isDigitString s then some s else none

/-- Numeric value of a digit string. -/
def natOfDigits (s : String) : ℕ :=
  s.toList.foldl (fun n c => n * 10 + (c.toNat - ('0').toNat)) 0

/-- JS `String.prototype.toLowerCase()` (ASCII range, which covers pair
types): characterwise lower-casing. -/
def jsToLower (s : String) : String :=
  String.mk (s.data.map Char.toLower)

/-- JS `Number(x || 0)` applied to a digit-string-or-null value. -/
def numOrZero : Option String → ℚ
  | none => 0
  | some s => (natOfDigits s : ℚ)

/-! ## OHLCV aggregator (api/util/ohlcv-agg.js) — claims C1, C9

`getCandles` runs one SQL query and a JS fill loop.  The SQL is embedded
relationally: `raw` filters stored 1-minute bars to `[from,to)`; `tagged`
computes `bucket_ts := floor(epoch/step)*step`; `agg`/`o` aggregate each
bucket (min low, max high, summed volume/trades, open of the earliest
minute, close of the latest minute); `series` is
`generate_series(from, to - 1 second, step)` and is LEFT JOINed against
the aggregates, ordered by timestamp.  Timestamps are epoch seconds (`ℕ`),
prices and volumes exact rationals. -/

/-- One stored `ohlcv_1m` row (all columns non-null, as written by the
ingester). `opn` stands for the SQL `open` column. -/
structure Bar1m where
  bucket_start : ℕ
  opn : ℚ
  high : ℚ
  low : ℚ
  close : ℚ
  volume_zig : ℚ
  trade_count : ℕ
deriving DecidableEq, Repr

/-- Aggregated data of one non-empty coarse bucket (the `o` CTE row). -/
structure AggData where
  opn : ℚ
  high : ℚ
  low : ℚ
  close : ℚ
  vol : ℚ
  trades : ℕ
deriving DecidableEq, Repr

/-- One output bar of `getCandles` (every field a number — JS coerces with
`Number(x ?? 0)` on push, so no field of an output bar is ever null). -/
structure OutBar where
  ts : ℕ
  opn : ℚ
  high : ℚ
  low : ℚ
  close : ℚ
  volume : ℚ
  trades : ℚ
deriving DecidableEq, Repr

/-- Number of rows of `generate_series(f, t - 1s, step)`: timestamps
`f, f+step, …` not exceeding `t-1` (empty when `t ≤ f`). -/
def seriesLen (f t step : ℕ) : ℕ :=
  if t ≤ f then 0 else (t - 1 - f) / step + 1

/-- The `series` CTE: the gap-free bucket boundaries of `[f,t)` at `step`. -/
def series (f t step : ℕ) : List ℕ :=
  (List.range (seriesLen f t step)).map (fun k => f + k * step)

/-- `floor(extract(epoch from b)/step)*step` — the coarse bucket of a
1-minute bar. -/
def bucketOf (step b : ℕ) : ℕ :=
  b / step * step

/-- The `raw` rows of one coarse bucket `ts`: stored 1-minute bars inside
`[f,t)` whose tagged `bucket_ts` equals `ts`. -/
def bucketGroup (store : List Bar1m) (f t step ts : ℕ) : List Bar1m :=
  store.filter (fun r =>
    decide (f ≤ r.bucket_start) && decide (r.bucket_start < t) &&
    decide (bucketOf step r.bucket_start = ts))

/-- Minimum bucket_start of a non-empty group (`ts_open`). -/
def groupTsOpen (x : Bar1m) (xs : List Bar1m) : ℕ :=
  xs.foldl (fun a r => min a r.bucket_start) x.bucket_start

/-- Maximum bucket_start of a non-empty group (`ts_close`). -/
def groupTsClose (x : Bar1m) (xs : List Bar1m) : ℕ :=
  xs.foldl (fun a r => max a r.bucket_start) x.bucket_start

/-- The `agg`/`o` aggregation of one bucket group; `none` for an empty
group (i.e. the LEFT JOIN produced nulls). `open`/`close` are the `open`
of the earliest and the `close` of the latest 1-minute bar, matching the
correlated subqueries on `ts_open`/`ts_close`. -/
def aggData : List Bar1m → Option AggData
  | [] => none
  | x :: xs =>
    let g := x :: xs
    let tsO := groupTsOpen x xs
    let tsC := groupTsClose x xs
    some {
      opn := ((g.find? (fun r => r.bucket_start = tsO)).map Bar1m.opn).getD 0
      close := ((g.find? (fun r => r.bucket_start = tsC)).map Bar1m.close).getD 0
      low := xs.foldl (fun a r => min a r.low) x.low
      high := xs.foldl (fun a r => max a r.high) x.high
      vol := xs.foldl (fun a r => a + r.volume_zig) x.volume_zig
      trades := xs.foldl (fun a r => a + r.trade_count) x.trade_count }

/-- The rows returned by the SQL query, in timestamp order: one row per
series boundary, LEFT JOINed with the bucket aggregate. -/
def joinedRows (store : List Bar1m) (f t step : ℕ) : List (ℕ × Option AggData) :=
  (series f t step).map (fun ts => (ts, aggData (bucketGroup store f t step ts)))

/-- The `mode === 'mcap' && circ != null` transform: multiply OHLC by the
circulating supply. -/
def applyMcap (mode : String) (circ : Option ℚ) (v : ℚ) : ℚ :=
  if mode = "mcap" then
    match circ with
    | some c => v * c
    | none => v
  else v

/-- The `unit === 'usd'` transform on OHLC values. -/
def applyUsd (unit : String) (zigUsd v : ℚ) : ℚ :=
  if unit = "usd" then v * zigUsd else v

/-- Fill-loop state: `lastClose` and the bars accumulated so far. -/
structure FillState where
  lastClose : Option ℚ
  out : List OutBar
deriving Repr

/-- One iteration of the JS fill loop over a query row: an empty row is
filled per policy (`prev` requires a previous close, else the row is
skipped; `zero` emits a flat zero bar; anything else skips), then the
mcap/usd transforms apply and the (transformed) close becomes `lastClose`. -/
def fillStep (mode unit : String) (circ : Option ℚ) (zigUsd : ℚ) (fill : String)
    (st : FillState) (row : ℕ × Option AggData) : FillState :=
  let vals : Option (ℚ × ℚ × ℚ × ℚ × ℚ × ℚ) :=
    match row.2 with
    | some d => some (d.opn, d.high, d.low, d.close, d.vol, (d.trades : ℚ))
    | none =>
      if fill = "prev" then
        match st.lastClose with
        | some lc => some (lc, lc, lc, lc, 0, 0)
        | none => none
      else if fill = "zero" then some (0, 0, 0, 0, 0, 0)
      else none
  match vals with
  | none => st
  | some (o, h, l, c, v, tr) =>
    let o := applyUsd unit zigUsd (applyMcap mode circ o)
    let h := applyUsd unit zigUsd (applyMcap mode circ h)
    let l := applyUsd unit zigUsd (applyMcap mode circ l)
    let c := applyUsd unit zigUsd (applyMcap mode circ c)
    let v := if unit = "usd" then v * zigUsd else v
    { lastClose := some c
      out := st.out ++ [{ ts := row.1, opn := o, high := h, low := l,
                          close := c, volume := v, trades := tr }] }

/-- `getCandles` (api/util/ohlcv-agg.js): the SQL rows followed by the JS
fill loop. Parameters mirror the source: `mode`/`unit`/`circ`/`zigUsd`
are the valuation transforms, `fill` the fill policy, `[f,t)` the range,
`step` the timeframe step in seconds, `store` the stored 1-minute bars in
scope (one pool, or the union of native-quoted pools of a token). -/
def getCandles (mode unit : String) (circ : Option ℚ) (zigUsd : ℚ)
    (fill : String) (f t step : ℕ) (store : List Bar1m) : List OutBar :=
  ((joinedRows store f t step).foldl (fillStep mode unit circ zigUsd fill)
    { lastClose := none, out := [] }).out

/-! ### Lemmas about the fill loop -/

/-- A query row is emitted (exactly one bar, carrying the row's timestamp)
whenever the bucket has data, or the policy is `zero`, or the policy is
`prev` and a previous close exists; afterwards a previous close exists. -/
theorem fillStep_emits (mode unit : String) (circ : Option ℚ) (zigUsd : ℚ)
    (fill : String) (st : FillState) (row : ℕ × Option AggData)
    (h : row.2.isSome ∨ fill = "zero" ∨ (fill = "prev" ∧ st.lastClose.isSome)) :
    (fillStep mode unit circ zigUsd fill st row).out.map OutBar.ts
      = st.out.map OutBar.ts ++ [row.1]
    ∧ (fillStep mode unit circ zigUsd fill st row).lastClose.isSome := by
  rcases row with ⟨ts, data⟩
  cases data with
  | some d => simp [fillStep]
  | none =>
    rcases h with h | h | ⟨h, h'⟩
    · simp at h
    · subst h
      simp [fillStep]
    · subst h
      rcases hlc : st.lastClose with _ | lc
      · rw [hlc] at h'; simp at h'
      · simp [fillStep, hlc]

/-- A `prev`-policy row with an empty bucket and no previous close is
skipped, leaving the loop state unchanged. -/
theorem fillStep_skip (mode unit : String) (circ : Option ℚ) (zigUsd : ℚ)
    (st : FillState) (row : ℕ × Option AggData)
    (hdata : row.2 = none) (hlc : st.lastClose = none) :
    fillStep mode unit circ zigUsd "prev" st row = st := by
  rcases row with ⟨ts, data⟩
  simp at hdata
  subst hdata
  simp [fillStep, hlc]

/-- Under `fill = "zero"` every query row is emitted: the loop appends one
bar per row, in row order. -/
theorem foldl_emits_zero (mode unit : String) (circ : Option ℚ) (zigUsd : ℚ)
    (rows : List (ℕ × Option AggData)) (st : FillState) :
    ((rows.foldl (fillStep mode unit circ zigUsd "zero") st).out.map OutBar.ts)
      = st.out.map OutBar.ts ++ rows.map Prod.fst := by
  induction rows generalizing st with
  | nil => simp
  | cons row rest ih =>
    have h := fillStep_emits mode unit circ zigUsd "zero" st row (Or.inr (Or.inl rfl))
    simp only [List.foldl_cons, List.map_cons]
    rw [ih, h.1]
    simp

/-- Under `fill = "prev"`, once a previous close exists every remaining
query row is emitted, in row order. -/
theorem foldl_emits_prev (mode unit : String) (circ : Option ℚ) (zigUsd : ℚ)
    (rows : List (ℕ × Option AggData)) (st : FillState)
    (hlc : st.lastClose.isSome) :
    ((rows.foldl (fillStep mode unit circ zigUsd "prev") st).out.map OutBar.ts)
      = st.out.map OutBar.ts ++ rows.map Prod.fst := by
  induction rows generalizing st with
  | nil => simp
  | cons row rest ih =>
    have h := fillStep_emits mode unit circ zigUsd "prev" st row
      (Or.inr (Or.inr ⟨rfl, hlc⟩))
    simp only [List.foldl_cons, List.map_cons]
    rw [ih _ h.2, h.1]
    simp

/-- Under `fill = "prev"` with no previous close yet, a run of empty-bucket
rows is skipped entirely. -/
theorem foldl_skips_prev (mode unit : String) (circ : Option ℚ) (zigUsd : ℚ)
    (rows : List (ℕ × Option AggData)) (st : FillState)
    (hlc : st.lastClose = none) (hdata : ∀ r ∈ rows, r.2 = none) :
    rows.foldl (fillStep mode unit circ zigUsd "prev") st = st := by
  induction rows with
  | nil => simp
  | cons row rest ih =>
    simp only [List.foldl_cons]
    rw [fillStep_skip mode unit circ zigUsd st row (hdata row (by simp)) hlc]
    exact ih (fun r hr => hdata r (by simp [hr]))

/-- The query rows carry the series timestamps. -/
theorem joinedRows_map_fst (store : List Bar1m) (f t step : ℕ) :
    (joinedRows store f t step).map Prod.fst = series f t step := by
  rw [joinedRows, List.map_map]
  exact List.map_id _

/-- For a non-empty range the series starts at `f`. -/
theorem series_cons (f t step : ℕ) (hft : f < t) :
    series f t step
      = f :: (List.range (seriesLen f t step - 1)).map (fun k => f + (k + 1) * step) := by
  have hn : 0 < seriesLen f t step := by
    unfold seriesLen
    rw [if_neg (by omega : ¬ t ≤ f)]
    exact Nat.succ_pos _
  obtain ⟨n, hsl⟩ : ∃ n, seriesLen f t step = n + 1 :=
    ⟨seriesLen f t step - 1, by omega⟩
  rw [series, hsl, List.range_succ_eq_map]
  simp [List.map_map, Function.comp, Nat.succ_eq_add_one]

/-- The query has one row per series boundary. -/
theorem joinedRows_length (store : List Bar1m) (f t step : ℕ) :
    (joinedRows store f t step).length = seriesLen f t step := by
  rw [joinedRows, List.length_map, series, List.length_map, List.length_range]

/-- Under divisibility, the series has exactly `(t-f)/step` boundaries. -/
theorem seriesLen_eq_div (f t step : ℕ) (hstep : 0 < step)
    (hdiv : step ∣ (t - f)) (hft : f < t) :
    seriesLen f t step = (t - f) / step := by
  obtain ⟨c, hc⟩ := hdiv
  rcases c with _ | c'
  · omega
  · have hmul : t - f = step * c' + step := by rw [hc]; ring
    have h1 : t - 1 - f = step * c' + (step - 1) := by
      have h2 := hmul
      set A := step * c' with hA
      omega
    have h3 : (step * c' + (step - 1)) / step = c' := by
      rw [Nat.mul_add_div hstep]
      rw [Nat.div_eq_of_lt (by omega)]
      omega
    have h4 : (t - f) / step = c' + 1 := by
      rw [hc, Nat.mul_div_cancel_left _ hstep]
    rw [seriesLen, if_neg (by omega), h1, h3, h4]

/-- The series timestamps are strictly increasing. -/
theorem series_pairwise_lt (f t step : ℕ) (hstep : 0 < step) :
    List.Pairwise (· < ·) (series f t step) := by
  refine List.Pairwise.map _ ?_ (List.pairwise_lt_range _)
  intro a b hab
  have : a * step < b * step := (Nat.mul_lt_mul_right hstep).mpr hab
  omega

/-- **C1 (counterexample).** As stated, the continuity claim fails for
`fill = 'prev'`: over `[0,120)` at step 60 with no stored 1-minute data,
`getCandles` returns 0 bars, not `(120-0)/60 = 2` — empty buckets before
the first close are skipped, not filled. -/
theorem getCandles_prev_gap_cex :
    (getCandles "price" "native" none 1 "prev" 0 120 60 []).length = 0
    ∧ (120 - 0) / 60 = 2 := by
  constructor
  · rfl
  · rfl

/-- **C1 (amended).** OHLCV continuity: for a step-divisible half-open
range `[f,t)` and fill policy `zero` — or `prev` provided the range's
first bucket contains 1-minute data, so a previous close exists from the
start — `getCandles` returns exactly `(t-f)/step` bars, one per series
boundary, with strictly increasing bucket timestamps (and, by the shape of
`OutBar`, no null fields: the source coerces every field with
`Number(x ?? 0)`). -/
theorem getCandles_continuity (mode unit : String) (circ : Option ℚ)
    (zigUsd : ℚ) (fill : String) (f t step : ℕ) (store : List Bar1m)
    (hstep : 0 < step) (hdiv : step ∣ (t - f)) (hft : f < t)
    (hfill : fill = "zero"
      ∨ (fill = "prev" ∧ (aggData (bucketGroup store f t step f)).isSome)) :
    (getCandles mode unit circ zigUsd fill f t step store).map OutBar.ts
        = series f t step
    ∧ (getCandles mode unit circ zigUsd fill f t step store).length
        = (t - f) / step
    ∧ List.Pairwise (· < ·)
        ((getCandles mode unit circ zigUsd fill f t step store).map OutBar.ts) := by
  have hlen : (series f t step).length = (t - f) / step := by
    rw [series, List.length_map, List.length_range]
    exact seriesLen_eq_div f t step hstep hdiv hft
  have hmain : (getCandles mode unit circ zigUsd fill f t step store).map OutBar.ts
      = series f t step := by
    rcases hfill with hz | ⟨hp, hdata⟩
    · subst hz
      rw [getCandles, foldl_emits_zero]
      simp [joinedRows_map_fst]
    · subst hp
      have hser := series_cons f t step hft
      set n := seriesLen f t step - 1 with hn
      have hjr : joinedRows store f t step
          = (f, aggData (bucketGroup store f t step f)) ::
            ((List.range n).map
              (fun k => (f + (k + 1) * step,
                aggData (bucketGroup store f t step (f + (k + 1) * step))))) := by
        rw [joinedRows, hser]
        simp [List.map_map, Function.comp]
      obtain ⟨d, hd⟩ := Option.isSome_iff_exists.mp hdata
      rw [getCandles, hjr, List.foldl_cons]
      have hemit := fillStep_emits mode unit circ zigUsd "prev"
        { lastClose := none, out := [] }
        (f, aggData (bucketGroup store f t step f)) (Or.inl (by simp [hd]))
      rw [foldl_emits_prev _ _ _ _ _ _ hemit.2, hemit.1]
      rw [hser]
      simp [List.map_map, Function.comp]
  refine ⟨hmain, ?_, ?_⟩
  · have := congrArg List.length hmain
    simpa [hlen] using this
  · rw [hmain]
    exact series_pairwise_lt f t step hstep

/-- **C1 (witness).** The amended continuity theorem at a concrete input:
`fill = 'zero'` over `[0,120)` at step 60 with no stored data. -/
theorem getCandles_continuity_witness :
    (getCandles "price" "native" none 1 "zero" 0 120 60 []).map OutBar.ts
        = series 0 120 60
    ∧ (getCandles "price" "native" none 1 "zero" 0 120 60 []).length
        = (120 - 0) / 60
    ∧ List.Pairwise (· < ·)
        ((getCandles "price" "native" none 1 "zero" 0 120 60 []).map OutBar.ts) :=
  getCandles_continuity "price" "native" none 1 "zero" 0 120 60 []
    (by decide) (by decide) (by decide) (Or.inl rfl)

/-- **C9.** Under `fill = 'prev'`, every empty bucket preceding the first
bucket with 1-minute data is omitted (no previous close exists yet): when
the first `k` query rows are empty and row `k` has data, the output
carries exactly the series boundaries from position `k` on; so for `k > 0`
the series begins strictly after `f` and has fewer than `(t-f)/step`
bars. -/
theorem getCandles_prev_omits_leading_gaps (mode unit : String)
    (circ : Option ℚ) (zigUsd : ℚ) (f t step : ℕ) (store : List Bar1m)
    (k : ℕ) (hstep : 0 < step) (hdiv : step ∣ (t - f)) (hft : f < t)
    (hlead : ∀ r ∈ (joinedRows store f t step).take k, r.2 = none)
    (hk : k < (joinedRows store f t step).length)
    (hdata : (((joinedRows store f t step).drop k).headD (0, none)).2.isSome) :
    (getCandles mode unit circ zigUsd "prev" f t step store).map OutBar.ts
        = (series f t step).drop k
    ∧ (0 < k →
        (getCandles mode unit circ zigUsd "prev" f t step store).length
            < (t - f) / step
        ∧ ∀ b ∈ getCandles mode unit circ zigUsd "prev" f t step store,
            f < b.ts) := by
  rcases hdrop : (joinedRows store f t step).drop k with _ | ⟨row, rest⟩
  · exfalso
    have := congrArg List.length hdrop
    rw [List.length_drop] at this
    simp at this
    omega
  rw [hdrop] at hdata
  simp only [List.headD_cons] at hdata
  have hmain : (getCandles mode unit circ zigUsd "prev" f t step store).map OutBar.ts
      = (series f t step).drop k := by
    rw [getCandles]
    conv_lhs => rw [← List.take_append_drop k (joinedRows store f t step)]
    rw [List.foldl_append,
      foldl_skips_prev mode unit circ zigUsd _ _ rfl hlead, hdrop,
      List.foldl_cons]
    have hemit := fillStep_emits mode unit circ zigUsd "prev"
      { lastClose := none, out := [] } row (Or.inl hdata)
    rw [foldl_emits_prev _ _ _ _ _ _ hemit.2, hemit.1]
    have : (series f t step).drop k
        = ((joinedRows store f t step).drop k).map Prod.fst := by
      rw [← joinedRows_map_fst store f t step, List.map_drop]
    rw [this, hdrop]
    simp
  refine ⟨hmain, fun hkpos => ?_⟩
  have hsl : seriesLen f t step = (t - f) / step :=
    seriesLen_eq_div f t step hstep hdiv hft
  have hlen : (getCandles mode unit circ zigUsd "prev" f t step store).length
      = seriesLen f t step - k := by
    have := congrArg List.length hmain
    rw [List.length_map, List.length_drop] at this
    rw [this, series, List.length_map, List.length_range]
  constructor
  · rw [joinedRows_length] at hk
    omega
  · intro b hb
    have hts : b.ts ∈ (series f t step).drop k := by
      rw [← hmain]
      exact List.mem_map_of_mem OutBar.ts hb
    have hser := series_cons f t step hft
    obtain ⟨k', hk'⟩ : ∃ k', k = k' + 1 := ⟨k - 1, by omega⟩
    rw [hser, hk', List.drop_succ_cons] at hts
    have htail : b.ts ∈ (List.range (seriesLen f t step - 1)).map
        (fun j => f + (j + 1) * step) := List.mem_of_mem_drop hts
    obtain ⟨j, _, hj⟩ := List.mem_map.mp htail
    have : 0 < (j + 1) * step := by positivity
    omega

/-- **C9 (witness).** Concrete instance: one stored 1-minute bar in the
second bucket of `[0,180)` at step 60; the leading empty bucket is
omitted, leaving 2 of 3 bars, all strictly after `from`. -/
theorem getCandles_prev_omits_leading_gaps_witness :
    (getCandles "price" "native" none 1 "prev" 0 180 60
        [{ bucket_start := 70, opn := 1, high := 1, low := 1, close := 1,
           volume_zig := 0, trade_count := 1 }]).map OutBar.ts
      = (series 0 180 60).drop 1
    ∧ (0 < 1 →
        (getCandles "price" "native" none 1 "prev" 0 180 60
            [{ bucket_start := 70, opn := 1, high := 1, low := 1, close := 1,
               volume_zig := 0, trade_count := 1 }]).length < (180 - 0) / 60
        ∧ ∀ b ∈ getCandles "price" "native" none 1 "prev" 0 180 60
            [{ bucket_start := 70, opn := 1, high := 1, low := 1, close := 1,
               volume_zig := 0, trade_count := 1 }], 0 < b.ts) :=
  getCandles_prev_omits_leading_gaps "price" "native" none 1 0 180 60
    [{ bucket_start := 70, opn := 1, high := 1, low := 1, close := 1,
       volume_zig := 0, trade_count := 1 }] 1
    (by decide) (by decide) (by decide) (by decide) (by decide) (by decide)

/-! ## Swap-route pool ranking (api/routes/swap.js) — claim C2

`pickBestBuyPool` / `pickBestSellPool` load up to 32 native-quoted price
rows for the token plus a 24h TVL map, sort them with the comparator
`(a,b) => pa !== pb ? pa - pb : tb - ta` (ascending mid price for buy,
descending for sell, exact-equality ties broken by higher TVL) and return
the first row.  They never read reserves and never simulate.  The inputs
(the SQL result rows and TVL map) are parameters here. -/

/-- One row of the `prices ⋈ pools` query. -/
structure CandRow where
  pool_id : ℕ
  price_in_zig : ℚ
  pair_contract : String
  pair_type : String
deriving DecidableEq, Repr

/-- `tvlMap.get(pool_id) || 0` — the 24h TVL of a pool, defaulting to 0. -/
def tvlOf (tvls : List (ℕ × ℚ)) (pid : ℕ) : ℚ :=
  (tvls.lookup pid).getD 0

/-- The BUY sort order: `cmp(a,b) ≤ 0` for the buy comparator — lower mid
price first, on an exact price tie higher TVL first. -/
def buyRel (tvls : List (ℕ × ℚ)) (a b : CandRow) : Prop :=
  a.price_in_zig < b.price_in_zig
  ∨ (a.price_in_zig = b.price_in_zig ∧ tvlOf tvls b.pool_id ≤ tvlOf tvls a.pool_id)

/-- The SELL sort order: higher mid price first, ties by higher TVL. -/
def sellRel (tvls : List (ℕ × ℚ)) (a b : CandRow) : Prop :=
  b.price_in_zig < a.price_in_zig
  ∨ (a.price_in_zig = b.price_in_zig ∧ tvlOf tvls b.pool_id ≤ tvlOf tvls a.pool_id)

instance (tvls : List (ℕ × ℚ)) (a b : CandRow) : Decidable (buyRel tvls a b) :=
  inferInstanceAs (Decidable (_ ∨ _))

instance (tvls : List (ℕ × ℚ)) (a b : CandRow) : Decidable (sellRel tvls a b) :=
  inferInstanceAs (Decidable (_ ∨ _))

instance (tvls : List (ℕ × ℚ)) : IsTotal CandRow (buyRel tvls) := by
  constructor
  intro a b
  rcases lt_trichotomy a.price_in_zig b.price_in_zig with h | h | h
  · exact Or.inl (Or.inl h)
  · rcases le_total (tvlOf tvls b.pool_id) (tvlOf tvls a.pool_id) with h' | h'
    · exact Or.inl (Or.inr ⟨h, h'⟩)
    · exact Or.inr (Or.inr ⟨h.symm, h'⟩)
  · exact Or.inr (Or.inl h)

instance (tvls : List (ℕ × ℚ)) : IsTrans CandRow (buyRel tvls) := by
  constructor
  rintro a b c (h | ⟨h, h'⟩) (g | ⟨g, g'⟩)
  · exact Or.inl (h.trans g)
  · exact Or.inl (g ▸ h)
  · exact Or.inl (h ▸ g)
  · exact Or.inr ⟨h.trans g, g'.trans h'⟩

instance (tvls : List (ℕ × ℚ)) : IsTotal CandRow (sellRel tvls) := by
  constructor
  intro a b
  rcases lt_trichotomy a.price_in_zig b.price_in_zig with h | h | h
  · exact Or.inr (Or.inl h)
  · rcases le_total (tvlOf tvls b.pool_id) (tvlOf tvls a.pool_id) with h' | h'
    · exact Or.inl (Or.inr ⟨h, h'⟩)
    · exact Or.inr (Or.inr ⟨h.symm, h'⟩)
  · exact Or.inl (Or.inl h)

instance (tvls : List (ℕ × ℚ)) : IsTrans CandRow (sellRel tvls) := by
  constructor
  rintro a b c (h | ⟨h, h'⟩) (g | ⟨g, g'⟩)
  · exact Or.inl (g.trans h)
  · exact Or.inl (g ▸ h)
  · exact Or.inl (h ▸ g)
  · exact Or.inr ⟨h.trans g, g'.trans h'⟩

/-- `pickBestBuyPool` (api/routes/swap.js): sort the candidate rows by the
buy comparator and return the first, `none` when there are no rows. -/
def pickBestBuyPool (tvls : List (ℕ × ℚ)) (rows : List CandRow) : Option CandRow :=
  (List.insertionSort (buyRel tvls) rows).head?

/-- `pickBestSellPool` (api/routes/swap.js): sort by the sell comparator
and return the first, `none` when there are no rows. -/
def pickBestSellPool (tvls : List (ℕ × ℚ)) (rows : List CandRow) : Option CandRow :=
  (List.insertionSort (sellRel tvls) rows).head?

/-- `pairFee` (api/routes/swap.js, simulation variant): leading digits of a
character stream. -/
def digitsRun : List Char → List Char × List Char
  | [] => ([], [])
  | c :: cs =>
    if c.isDigit then
      let p := digitsRun cs
      (c :: p.1, p.2)
    else ([], c :: cs)

/-- First match of the regex `xyk[_-](\d+)`: scan for `xyk`, a separator,
then a non-empty digit run; its numeric value in basis points. -/
def xykScan : List Char → Option ℕ
  | 'x' :: 'y' :: 'k' :: sep :: rest =>
    if sep = '_' ∨ sep = '-' then
      match digitsRun rest with
      | ([], _) => xykScan ('y' :: 'k' :: sep :: rest)
      | (d :: ds, _) => some (natOfDigits (String.mk (d :: ds)))
    else xykScan ('y' :: 'k' :: sep :: rest)
  | _ :: cs => xykScan cs
  | [] => none

/-- `pairFee` (api/routes/swap.js, simulation variant): pair-type string →
taker-fee fraction. `xyk` is 1 bp, `concentrated` 100 bp, a `xyk_NN` /
`xyk-NN` custom type NN bp, anything else (including a falsy pair type)
the conservative default of 30 bp. -/
def pairFee (pairType : Option String) : ℚ :=
  if jsTruthy pairType then
    let t := jsToLower (pairType.getD "")
    if t = "xyk" then 1 / 10000
    else if t = "concentrated" then 1 / 100
    else
      match xykScan t.toList with
      | some bps => (bps : ℚ) / 10000
      | none => 3 / 1000
  else 3 / 1000

/-- `simulateXYK` (api/routes/swap.js, simulation variant): constant-product
execution with fee on input; returns (output amount, effective price in
ZIG per token, price impact). `1e-18` guards divisions by zero. -/
def simulateXYK (fromIsZig : Bool) (amountIn Rz Rt fee : ℚ) : ℚ × ℚ × ℚ :=
  if ¬(0 < Rz ∧ 0 < Rt) ∨ ¬(0 < amountIn) then (0, 0, 0)
  else
    let mid := Rz / Rt
    let x := amountIn * (1 - fee)
    if fromIsZig then
      let outToken := x * Rt / (Rz + x)
      let eff := amountIn / max outToken (1 / 10 ^ 18)
      (outToken, eff, if 0 < mid then eff / mid - 1 else 0)
    else
      let outZig := x * Rz / (Rt + x)
      let eff := outZig / amountIn
      (outZig, eff, if 0 < mid then mid / max eff (1 / 10 ^ 18) - 1 else 0)

/-- Modelled from the spec (§4.6 candidate ranking), for comparison with
the source selection: for each candidate pool carrying reserves
`(Rz, Rt)`, simulate a buy of the requested amount with the pool's fee and
select the pool whose simulated output amount is maximal. -/
def specBestBuyBySim (cands : List (CandRow × ℚ × ℚ)) (amountIn : ℚ) :
    Option CandRow :=
  (cands.foldl
    (fun best c =>
      match best with
      | none => some c
      | some b =>
        if (simulateXYK true amountIn c.2.1 c.2.2 (pairFee (some c.1.pair_type))).1
            > (simulateXYK true amountIn b.2.1 b.2.2 (pairFee (some b.1.pair_type))).1
        then some c else some b)
    none).map Prod.fst

/-- Concrete candidate for C2: mid price 1 ZIG, pair type `concentrated`
(1% fee), whose pool-state reserves are 1000 ZIG / 1000 tokens. -/
def c2PoolA : CandRow :=
  { pool_id := 1, price_in_zig := 1, pair_contract := "p1",
    pair_type := "concentrated" }

/-- Concrete candidate for C2: mid price 1.001 ZIG, pair type `xyk`
(0.01% fee), whose pool-state reserves are 1001 ZIG / 1000 tokens. -/
def c2PoolB : CandRow :=
  { pool_id := 2, price_in_zig := 1001 / 1000, pair_contract := "p2",
    pair_type := "xyk" }

/-- **C2 (counterexample).** The claim fails on `pickBestBuyPool`: with two
candidate pools whose reserves are available — pool A (mid 1 ZIG,
`concentrated`, 1% fee, reserves 1000/1000) and pool B (mid 1.001 ZIG,
`xyk`, 0.01% fee, reserves 1001/1000) — and a requested buy of 10 ZIG,
pool B's simulated output (≈9.89) strictly exceeds pool A's (≈9.80), yet
the code selects pool A: it ranks by mid price alone even though reserves
are available for simulation. -/
theorem pickBestBuyPool_ignores_simulation_cex :
    pickBestBuyPool [] [c2PoolA, c2PoolB] = some c2PoolA
    ∧ (simulateXYK true 10 1001 1000 (pairFee (some "xyk"))).1
        > (simulateXYK true 10 1000 1000 (pairFee (some "concentrated"))).1
    ∧ specBestBuyBySim [(c2PoolA, 1000, 1000), (c2PoolB, 1001, 1000)] 10
        = some c2PoolB := by
  have hfee1 : pairFee (some "concentrated") = 1 / 100 := rfl
  have hfee2 : pairFee (some "xyk") = 1 / 10000 := rfl
  have hgt : (simulateXYK true 10 1001 1000 (pairFee (some "xyk"))).1
      > (simulateXYK true 10 1000 1000 (pairFee (some "concentrated"))).1 := by
    rw [hfee1, hfee2, simulateXYK, simulateXYK]
    norm_num
  refine ⟨?_, hgt, ?_⟩
  · rw [pickBestBuyPool]
    have hr : buyRel [] c2PoolA c2PoolB :=
      Or.inl (by rw [c2PoolA, c2PoolB]; norm_num)
    simp [List.insertionSort, List.orderedInsert, hr]
  · have hA : c2PoolA.pair_type = "concentrated" := rfl
    have hB : c2PoolB.pair_type = "xyk" := rfl
    simp only [specBestBuyBySim, List.foldl, hA, hB]
    rw [if_pos hgt]
    rfl

/-- **C2 (amended).** `pickBestBuyPool` and `pickBestSellPool` never
simulate execution and ignore reserves and the requested amount: they rank
the candidate native-quoted pools by mid price (`price_in_zig`) alone —
ascending for a buy, descending for a sell — breaking exact price ties by
higher 24h TVL, and return the first candidate of that order. -/
theorem pickBestPool_mid_price_ranking (tvls : List (ℕ × ℚ))
    (rows : List CandRow) :
    (∀ best, pickBestBuyPool tvls rows = some best →
      best ∈ rows ∧ ∀ x ∈ rows, buyRel tvls best x)
    ∧ (∀ best, pickBestSellPool tvls rows = some best →
      best ∈ rows ∧ ∀ x ∈ rows, sellRel tvls best x) := by
  constructor
  · intro best hbest
    rcases hsort : List.insertionSort (buyRel tvls) rows with _ | ⟨b, rest⟩
    · rw [pickBestBuyPool, hsort] at hbest
      simp at hbest
    · rw [pickBestBuyPool, hsort] at hbest
      simp at hbest
      subst hbest
      have hperm := List.perm_insertionSort (buyRel tvls) rows
      rw [hsort] at hperm
      constructor
      · exact hperm.mem_iff.mp (by simp)
      · intro x hx
        have hxs : x ∈ b :: rest := hperm.mem_iff.mpr hx
        have hsorted := List.sorted_insertionSort (buyRel tvls) rows
        rw [hsort] at hsorted
        rcases List.mem_cons.mp hxs with h | h
        · subst h
          exact Or.inr ⟨rfl, le_refl _⟩
        · exact List.rel_of_sorted_cons hsorted x h
  · intro best hbest
    rcases hsort : List.insertionSort (sellRel tvls) rows with _ | ⟨b, rest⟩
    · rw [pickBestSellPool, hsort] at hbest
      simp at hbest
    · rw [pickBestSellPool, hsort] at hbest
      simp at hbest
      subst hbest
      have hperm := List.perm_insertionSort (sellRel tvls) rows
      rw [hsort] at hperm
      constructor
      · exact hperm.mem_iff.mp (by simp)
      · intro x hx
        have hxs : x ∈ b :: rest := hperm.mem_iff.mpr hx
        have hsorted := List.sorted_insertionSort (sellRel tvls) rows
        rw [hsort] at hsorted
        rcases List.mem_cons.mp hxs with h | h
        · subst h
          exact Or.inr ⟨rfl, le_refl _⟩
        · exact List.rel_of_sorted_cons hsorted x h

/-- Concrete candidate for the C2 witness: mid price 1 ZIG. -/
def c2RowX : CandRow :=
  { pool_id := 1, price_in_zig := 1, pair_contract := "p1", pair_type := "xyk" }

/-- Concrete candidate for the C2 witness: mid price 2 ZIG. -/
def c2RowY : CandRow :=
  { pool_id := 2, price_in_zig := 2, pair_contract := "p2", pair_type := "xyk" }

/-- **C2 (witness).** The amended ranking theorem applied to a concrete
two-pool instance: the buy pick is the lower-mid-price pool and is related
to every candidate by the buy order. -/
theorem pickBestPool_mid_price_ranking_witness :
    c2RowX ∈ [c2RowX, c2RowY] ∧ ∀ x ∈ [c2RowX, c2RowY], buyRel [] c2RowX x :=
  (pickBestPool_mid_price_ranking [] [c2RowX, c2RowY]).1 c2RowX
    (by
      rw [pickBestBuyPool]
      have hr : buyRel [] c2RowX c2RowY :=
        Or.inl (by rw [c2RowX, c2RowY]; norm_num)
      simp [List.insertionSort, List.orderedInsert, hr])

/-! ## Swap reserve-encoding resolution (core/block-processor.js) — claim C3

The swap branch of `processHeight` reads reserves from two possible
encodings: explicit `reserve_assetN_denom/amount` (or `assetN_*`)
attributes, or a single packed `reserves` string parsed by
`parseReservesKV` into ordered (denom, amount) pairs; explicit attributes
take precedence, the packed string only fills fields left missing.  Event
attributes are an ordered association list with first-match lookup (spec
§3: duplicate keys possible, first/ordered match wins).  `parseReservesKV`
lives in core/parse.js, which is not part of the sources here, so the
packed-string parser is a parameter `pkv`; what the code does with its
output is embedded exactly. -/

/-- Attribute lookup on an event's ordered attribute map (first match). -/
def attrGet (m : List (String × String)) (k : String) : Option String :=
  m.lookup k

/-- JS `a || b || null`: first truthy value, else null. -/
def jsOrNull (a b : Option String) : Option String :=
  if jsTruthy a then a else if jsTruthy b then b else none

/-- Lines 136–145 of core/block-processor.js: resolve the four reserve
fields from the explicit attributes, falling back per-field (JS `??`) to
the packed `reserves` string parsed by `pkv` when at least one field is
missing and the packed string is present. -/
def resolveReserves (pkv : String → List (String × String))
    (m : List (String × String)) :
    Option String × Option String × Option String × Option String :=
  let res1d := jsOrNull (attrGet m "reserve_asset1_denom") (attrGet m "asset1_denom")
  let res1a := digitsOrNull
    (jsOr (attrGet m "reserve_asset1_amount") (attrGet m "asset1_amount"))
  let res2d := jsOrNull (attrGet m "reserve_asset2_denom") (attrGet m "asset2_denom")
  let res2a := digitsOrNull
    (jsOr (attrGet m "reserve_asset2_amount") (attrGet m "asset2_amount"))
  let reservesStr := attrGet m "reserves"
  if ((!jsTruthy res1d || !jsTruthy res1a || !jsTruthy res2d || !jsTruthy res2a)
      && jsTruthy reservesStr) then
    let kv := pkv (reservesStr.getD "")
    let res1d := match kv.get? 0 with
      | some p => jsNullish res1d (some p.1)
      | none => res1d
    let res1a := match kv.get? 0 with
      | some p => jsNullish res1a (digitsOrNull (some p.2))
      | none => res1a
    let res2d := match kv.get? 1 with
      | some p => jsNullish res2d (some p.1)
      | none => res2d
    let res2a := match kv.get? 1 with
      | some p => jsNullish res2a (digitsOrNull (some p.2))
      | none => res2a
    (res1d, res1a, res2d, res2a)
  else (res1d, res1a, res2d, res2a)

/-- A pool-directory record (`poolWithTokens` row) as used by the swap and
OHLCV tasks. -/
structure Pool where
  pool_id : ℕ
  base_denom : String
  quote_denom : String
  base_exp : ℕ
  quote_exp : ℕ
  is_uzig_quote : Bool
deriving DecidableEq, Repr

/-- The `insertTrade` row built by the swap task (timestamp and the
processing height travel alongside; `direction` is produced by the
`classifyDirection` helper, passed in as `cls`). -/
structure TradeRow where
  pool_id : ℕ
  pair_contract : String
  action : String
  direction : String
  offer_asset_denom : Option String
  offer_amount_base : Option String
  ask_asset_denom : Option String
  ask_amount_base : Option String
  return_amount_base : Option String
  is_router : Bool
  reserve_asset1_denom : Option String
  reserve_asset1_amount_base : Option String
  reserve_asset2_denom : Option String
  reserve_asset2_amount_base : Option String
  height : ℕ
  tx_hash : Option String
  signer : Option String
  msg_index : ℕ
deriving DecidableEq, Repr

/-- The `upsertPoolState` row built by the swap task. -/
structure PoolStateRow where
  pool_id : ℕ
  base_denom : String
  quote_denom : String
  res1d : Option String
  res1a : Option String
  res2d : Option String
  res2a : Option String
deriving DecidableEq, Repr

/-- The swap task's `insertTrade` call (lines 154–167): offer/ask legs are
read from either attribute-name variant, amounts are digit-validated, and
the resolved reserve fields are recorded verbatim. -/
def swapTradeRow (cls : Option String → String → String)
    (pkv : String → List (String × String)) (pool : Pool)
    (pairContract : String) (isRouter : Bool) (h : ℕ)
    (tx signer : Option String) (msgIdx : ℕ)
    (m : List (String × String)) : TradeRow :=
  let offer := jsOr (attrGet m "offer_asset") (attrGet m "offer_asset_denom")
  let ask := jsOr (attrGet m "ask_asset") (attrGet m "ask_asset_denom")
  let r := resolveReserves pkv m
  { pool_id := pool.pool_id
    pair_contract := pairContract
    action := "swap"
    direction := cls offer pool.quote_denom
    offer_asset_denom := offer
    offer_amount_base := digitsOrNull (attrGet m "offer_amount")
    ask_asset_denom := ask
    ask_amount_base := digitsOrNull (attrGet m "ask_amount")
    return_amount_base := digitsOrNull (attrGet m "return_amount")
    is_router := isRouter
    reserve_asset1_denom := r.1
    reserve_asset1_amount_base := r.2.1
    reserve_asset2_denom := r.2.2.1
    reserve_asset2_amount_base := r.2.2.2
    height := h
    tx_hash := tx
    signer := signer
    msg_index := msgIdx }

/-- The swap task's `upsertPoolState` call (lines 169–171). -/
def swapPoolStateRow (pkv : String → List (String × String)) (pool : Pool)
    (m : List (String × String)) : PoolStateRow :=
  let r := resolveReserves pkv m
  { pool_id := pool.pool_id
    base_denom := pool.base_denom
    quote_denom := pool.quote_denom
    res1d := r.1
    res1a := r.2.1
    res2d := r.2.2.1
    res2a := r.2.2.2 }

/-- The non-reserve attributes shared by the C3 swap variants. -/
def c3Routine (off ask oa aa ra : String) : List (String × String) :=
  [("offer_asset", off), ("ask_asset", ask), ("offer_amount", oa),
   ("ask_amount", aa), ("return_amount", ra)]

/-- Explicit reserve attributes. -/
def c3Explicit (d1 a1 d2 a2 : String) : List (String × String) :=
  [("reserve_asset1_denom", d1), ("reserve_asset1_amount", a1),
   ("reserve_asset2_denom", d2), ("reserve_asset2_amount", a2)]

/-- **C3.** Dual-encoding equivalence and precedence.  For any swap whose
reserves are nonempty denoms with digit-only amounts: (a) the version
carrying them as explicit attributes and the version carrying the same
values packed in a `reserves` string resolve to identical reserve fields,
hence identical Trade and PoolState rows; (b) when both encodings are
present the explicit values win (the packed string is ignored); (c) when
only asset 1 is explicit, the packed string fills exactly the missing
asset-2 fields. -/
theorem swap_dual_encoding_equivalence
    (cls : Option String → String → String)
    (pkv : String → List (String × String))
    (pool : Pool) (pairContract : String) (isRouter : Bool) (h : ℕ)
    (tx signer : Option String) (msgIdx : ℕ)
    (off ask oa aa ra d1 a1 d2 a2 s s' e1 b1 e2 b2 : String)
    (hd1 : d1 ≠ "") (hd2 : d2 ≠ "")
    (ha1 : isDigitString a1) (ha2 : isDigitString a2)
    (hs : s ≠ "") (hpkv : pkv s = [(d1, a1), (d2, a2)])
    (hs' : s' ≠ "") (hpkv' : pkv s' = [(e1, b1), (e2, b2)]) :
    resolveReserves pkv (c3Routine off ask oa aa ra ++ c3Explicit d1 a1 d2 a2)
        = (some d1, some a1, some d2, some a2)
    ∧ resolveReserves pkv (c3Routine off ask oa aa ra ++ [("reserves", s)])
        = (some d1, some a1, some d2, some a2)
    ∧ swapTradeRow cls pkv pool pairContract isRouter h tx signer msgIdx
          (c3Routine off ask oa aa ra ++ c3Explicit d1 a1 d2 a2)
        = swapTradeRow cls pkv pool pairContract isRouter h tx signer msgIdx
          (c3Routine off ask oa aa ra ++ [("reserves", s)])
    ∧ swapPoolStateRow pkv pool
          (c3Routine off ask oa aa ra ++ c3Explicit d1 a1 d2 a2)
        = swapPoolStateRow pkv pool
          (c3Routine off ask oa aa ra ++ [("reserves", s)])
    ∧ resolveReserves pkv
          (c3Routine off ask oa aa ra ++ c3Explicit d1 a1 d2 a2
            ++ [("reserves", s')])
        = (some d1, some a1, some d2, some a2)
    ∧ resolveReserves pkv
          (c3Routine off ask oa aa ra
            ++ [("reserve_asset1_denom", d1), ("reserve_asset1_amount", a1),
                ("reserves", s')])
        = (some d1, some a1, some e2, digitsOrNull (some b2)) := by
  have ht1 : jsTruthy (some d1) = true := by simp [jsTruthy, hd1]
  have ht2 : jsTruthy (some d2) = true := by simp [jsTruthy, hd2]
  have hts : jsTruthy (some s) = true := by simp [jsTruthy, hs]
  have hts' : jsTruthy (some s') = true := by simp [jsTruthy, hs']
  have hda1 : digitsOrNull (some a1) = some a1 := by simp [digitsOrNull, ha1]
  have hda2 : digitsOrNull (some a2) = some a2 := by simp [digitsOrNull, ha2]
  have ha1ne : a1 ≠ "" := by
    intro hemp
    rw [hemp] at ha1
    simp [isDigitString] at ha1
  have ha2ne : a2 ≠ "" := by
    intro hemp
    rw [hemp] at ha2
    simp [isDigitString] at ha2
  have hta1 : jsTruthy (some a1) = true := by simp [jsTruthy, ha1ne]
  have hta2 : jsTruthy (some a2) = true := by simp [jsTruthy, ha2ne]
  have hE : resolveReserves pkv
      (c3Routine off ask oa aa ra ++ c3Explicit d1 a1 d2 a2)
      = (some d1, some a1, some d2, some a2) := by
    simp [resolveReserves, c3Routine, c3Explicit, attrGet, List.lookup,
      jsOrNull, jsOr, ht1, ht2, hta1, hta2, hda1, hda2]
  have hP : resolveReserves pkv (c3Routine off ask oa aa ra ++ [("reserves", s)])
      = (some d1, some a1, some d2, some a2) := by
    simp [resolveReserves, c3Routine, attrGet, List.lookup, jsOrNull, jsOr,
      jsTruthy, jsNullish, digitsOrNull, hs, hpkv, ha1, ha2]
  refine ⟨hE, hP, ?_, ?_, ?_, ?_⟩
  · rw [swapTradeRow, swapTradeRow, hE, hP]
    simp [c3Routine, c3Explicit, attrGet, List.lookup]
  · rw [swapPoolStateRow, swapPoolStateRow, hE, hP]
  · simp [resolveReserves, c3Routine, c3Explicit, attrGet, List.lookup,
      jsOrNull, jsOr, ht1, ht2, hta1, hta2, hda1, hda2]
  · simp [resolveReserves, c3Routine, attrGet, List.lookup, jsOrNull, jsOr,
      jsTruthy, jsNullish, digitsOrNull, hs', hpkv', hd1, ha1ne, ha1]

/-- Concrete packed-string parser for the C3 witness: `R1` packs the same
values as the explicit attributes, `R2` packs different ones. -/
def c3WitnessPkv : String → List (String × String) :=
  fun x =>
    if x = "R1" then [("D1", "5"), ("D2", "7")]
    else if x = "R2" then [("E1", "9"), ("E2", "13")]
    else []

/-- Concrete pool record for the C3 witness. -/
def c3WitnessPool : Pool :=
  { pool_id := 1, base_denom := "D1", quote_denom := "uzig",
    base_exp := 6, quote_exp := 6, is_uzig_quote := true }

/-- **C3 (witness).** The equivalence theorem at concrete attribute
values. -/
theorem swap_dual_encoding_equivalence_witness :
    resolveReserves c3WitnessPkv
        (c3Routine "D1" "uzig" "5" "7" "7" ++ c3Explicit "D1" "5" "D2" "7")
        = (some "D1", some "5", some "D2", some "7")
    ∧ resolveReserves c3WitnessPkv
        (c3Routine "D1" "uzig" "5" "7" "7" ++ [("reserves", "R1")])
        = (some "D1", some "5", some "D2", some "7")
    ∧ swapTradeRow (fun _ _ => "sell") c3WitnessPkv c3WitnessPool "pair1"
          false 10 (some "h") (some "w") 0
          (c3Routine "D1" "uzig" "5" "7" "7" ++ c3Explicit "D1" "5" "D2" "7")
        = swapTradeRow (fun _ _ => "sell") c3WitnessPkv c3WitnessPool "pair1"
          false 10 (some "h") (some "w") 0
          (c3Routine "D1" "uzig" "5" "7" "7" ++ [("reserves", "R1")])
    ∧ swapPoolStateRow c3WitnessPkv c3WitnessPool
          (c3Routine "D1" "uzig" "5" "7" "7" ++ c3Explicit "D1" "5" "D2" "7")
        = swapPoolStateRow c3WitnessPkv c3WitnessPool
          (c3Routine "D1" "uzig" "5" "7" "7" ++ [("reserves", "R1")])
    ∧ resolveReserves c3WitnessPkv
          (c3Routine "D1" "uzig" "5" "7" "7" ++ c3Explicit "D1" "5" "D2" "7"
            ++ [("reserves", "R2")])
        = (some "D1", some "5", some "D2", some "7")
    ∧ resolveReserves c3WitnessPkv
          (c3Routine "D1" "uzig" "5" "7" "7"
            ++ [("reserve_asset1_denom", "D1"), ("reserve_asset1_amount", "5"),
                ("reserves", "R2")])
        = (some "D1", some "5", some "E2", digitsOrNull (some "13")) :=
  swap_dual_encoding_equivalence (fun _ _ => "sell") c3WitnessPkv
    c3WitnessPool "pair1" false 10 (some "h") (some "w") 0
    "D1" "uzig" "5" "7" "7" "D1" "5" "D2" "7" "R1" "R2" "E1" "9" "E2" "13"
    (by decide) (by decide) (by decide) (by decide) (by decide) (by decide)
    (by decide) (by decide)

/-! ## OHLCV 1-minute emission (core/block-processor.js, lines 174–185) — claim C4 -/

/-- Modelled from the spec: `toDisp` (core/parse.js, not among the sources)
converts a raw base-unit amount to display units — divide by
`10^exponent`; a null amount stays null. -/
def toDisp (x : Option String) (e : ℕ) : Option ℚ :=
  x.map (fun s => (natOfDigits s : ℚ) / 10 ^ e)

/-- The `(Rb, Rq)` orientation step of the OHLCV block: identify the base
and quote reserves by matching the pool's base denom against the first
reserve denom, then the second; no match leaves both at 0 (which then
fails the positivity gate). -/
def orientedReserves (pool : Pool) (res1d res1a res2d res2a : Option String) :
    ℚ × ℚ :=
  if res1d = some pool.base_denom then (numOrZero res1a, numOrZero res2a)
  else if res2d = some pool.base_denom then (numOrZero res2a, numOrZero res1a)
  else (0, 0)

/-- One `upsertOHLCV1m` write. `bucket_start` in epoch seconds, floored to
the minute. -/
structure OhlcvWrite where
  pool_id : ℕ
  bucket_start : ℕ
  price : ℚ
  vol_zig : Option ℚ
  trade_inc : ℕ
deriving DecidableEq, Repr

/-- Lines 174–185 of core/block-processor.js: the swap task's OHLCV step.
Emits a 1-minute bar only for native-quoted pools with both reserve denoms
present and positively parsed oriented reserves; price is quote-over-base
in display units, volume the quote-side leg of the trade. -/
def ohlcvEmit (pool : Pool) (res1d res1a res2d res2a offer offerAmt retAmt :
    Option String) (ts : ℕ) : Option OhlcvWrite :=
  if pool.is_uzig_quote && jsTruthy res1d && jsTruthy res2d then
    let r := orientedReserves pool res1d res1a res2d res2a
    if 0 < r.1 ∧ 0 < r.2 then
      some { pool_id := pool.pool_id
             bucket_start := ts / 60 * 60
             price := (r.2 / 10 ^ pool.quote_exp) / (r.1 / 10 ^ pool.base_exp)
             vol_zig := if offer = some pool.quote_denom
               then toDisp offerAmt pool.quote_exp
               else toDisp retAmt pool.quote_exp
             trade_inc := 1 }
    else none
  else none

/-- **C4.** A 1-minute OHLCV bar is written iff the pool's quote is the
chain's native asset and both reserve legs are present (denoms non-null)
and parse to positive numbers once oriented against the pool's base denom;
when written, its price is (quote reserve in display units) / (base
reserve in display units), its volume the quote-side leg of the trade in
display units (the offer amount when the offered asset is the quote denom,
otherwise the return amount), and it counts one trade in the swap's
minute bucket. -/
theorem ohlcv_emission_rule (pool : Pool)
    (res1d res1a res2d res2a offer offerAmt retAmt : Option String) (ts : ℕ) :
    ((ohlcvEmit pool res1d res1a res2d res2a offer offerAmt retAmt ts).isSome
      ↔ (pool.is_uzig_quote = true ∧ jsTruthy res1d = true
          ∧ jsTruthy res2d = true
          ∧ 0 < (orientedReserves pool res1d res1a res2d res2a).1
          ∧ 0 < (orientedReserves pool res1d res1a res2d res2a).2))
    ∧ ∀ w, ohlcvEmit pool res1d res1a res2d res2a offer offerAmt retAmt ts
        = some w →
      (w.price = ((orientedReserves pool res1d res1a res2d res2a).2
            / 10 ^ pool.quote_exp)
          / ((orientedReserves pool res1d res1a res2d res2a).1
            / 10 ^ pool.base_exp)
        ∧ w.vol_zig = (if offer = some pool.quote_denom
            then toDisp offerAmt pool.quote_exp
            else toDisp retAmt pool.quote_exp)
        ∧ w.bucket_start = ts / 60 * 60
        ∧ w.trade_inc = 1
        ∧ w.pool_id = pool.pool_id) := by
  constructor
  · simp only [ohlcvEmit]
    by_cases h1 : (pool.is_uzig_quote && jsTruthy res1d && jsTruthy res2d) = true
    · rw [if_pos h1]
      by_cases h2 : 0 < (orientedReserves pool res1d res1a res2d res2a).1
          ∧ 0 < (orientedReserves pool res1d res1a res2d res2a).2
      · rw [if_pos h2]
        simp only [Option.isSome_some, true_iff]
        simp only [Bool.and_eq_true] at h1
        exact ⟨h1.1.1, h1.1.2, h1.2, h2.1, h2.2⟩
      · rw [if_neg h2]
        simp only [Option.isSome_none, Bool.false_eq_true, false_iff]
        intro hcon
        exact h2 ⟨hcon.2.2.2.1, hcon.2.2.2.2⟩
    · rw [if_neg h1]
      simp only [Option.isSome_none, Bool.false_eq_true, false_iff]
      intro hcon
      rw [Bool.and_eq_true, Bool.and_eq_true] at h1
      exact h1 ⟨⟨hcon.1, hcon.2.1⟩, hcon.2.2.1⟩
  · intro w hw
    simp only [ohlcvEmit] at hw
    by_cases h1 : (pool.is_uzig_quote && jsTruthy res1d && jsTruthy res2d) = true
    · rw [if_pos h1] at hw
      by_cases h2 : 0 < (orientedReserves pool res1d res1a res2d res2a).1
          ∧ 0 < (orientedReserves pool res1d res1a res2d res2a).2
      · rw [if_pos h2] at hw
        rw [← Option.some_inj.mp hw]
        exact ⟨rfl, rfl, rfl, rfl, rfl⟩
      · rw [if_neg h2] at hw
        exact absurd hw (by simp)
    · rw [if_neg h1] at hw
      exact absurd hw (by simp)

/-- Concrete pool for the C4 witness: native-quoted, exponents 6/6. -/
def c4Pool : Pool :=
  { pool_id := 7, base_denom := "tok", quote_denom := "uzig",
    base_exp := 6, quote_exp := 6, is_uzig_quote := true }

/-- **C4 (witness).** The emission rule at a concrete swap: reserves
2 tok / 1 ZIG (base units), the offer leg is the quote asset. -/
theorem ohlcv_emission_rule_witness :
    ((ohlcvEmit c4Pool (some "tok") (some "2000000") (some "uzig")
        (some "1000000") (some "uzig") (some "500") none 125).isSome
      ↔ (c4Pool.is_uzig_quote = true ∧ jsTruthy (some "tok") = true
          ∧ jsTruthy (some "uzig") = true
          ∧ 0 < (orientedReserves c4Pool (some "tok") (some "2000000")
              (some "uzig") (some "1000000")).1
          ∧ 0 < (orientedReserves c4Pool (some "tok") (some "2000000")
              (some "uzig") (some "1000000")).2))
    ∧ ∀ w, ohlcvEmit c4Pool (some "tok") (some "2000000") (some "uzig")
        (some "1000000") (some "uzig") (some "500") none 125 = some w →
      (w.price = ((orientedReserves c4Pool (some "tok") (some "2000000")
              (some "uzig") (some "1000000")).2 / 10 ^ c4Pool.quote_exp)
          / ((orientedReserves c4Pool (some "tok") (some "2000000")
              (some "uzig") (some "1000000")).1 / 10 ^ c4Pool.base_exp)
        ∧ w.vol_zig = (if (some "uzig" : Option String) = some c4Pool.quote_denom
            then toDisp (some "500") c4Pool.quote_exp
            else toDisp none c4Pool.quote_exp)
        ∧ w.bucket_start = 125 / 60 * 60
        ∧ w.trade_inc = 1
        ∧ w.pool_id = c4Pool.pool_id) :=
  ohlcv_emission_rule c4Pool (some "tok") (some "2000000") (some "uzig")
    (some "1000000") (some "uzig") (some "500") none 125

/-! ## `create_pair` resolution (core/block-processor.js, lines 89–111) — claim C5 -/

/-- Event attribute access (`e.m.get(k)`), first match per spec §3. -/
def evGet (e : List (String × String)) (k : String) : Option String :=
  e.lookup k

/-- JS `String.prototype.trim()`: strip leading and trailing whitespace. -/
def jsTrim (s : String) : String :=
  String.mk (((s.data.dropWhile Char.isWhitespace).reverse.dropWhile
    Char.isWhitespace).reverse)

/-- Lines 89–111 of core/block-processor.js, reduced to the pool-address
resolution of one `create_pair` event: honor the event only when its
(trimmed) `_contract_address` is the configured factory; resolve the new
pool's address from the first sibling `register` event of the factory
(attribute `pair_contract_addr`), else from the last `instantiate` event's
contract address; a falsy result drops the event (`none` — a warning is
logged and no pool row is written). -/
def createPairPoolAddr (factory : String)
    (wasms insts : List (List (String × String)))
    (cp : List (String × String)) : Option String :=
  if jsTrim ((evGet cp "_contract_address").getD "") = factory then
    let reg := wasms.find? (fun w =>
      (evGet w "action" == some "register")
        && (evGet w "_contract_address" == some factory))
    let addr := jsOr (reg.bind (fun w => evGet w "pair_contract_addr"))
      ((insts.getLast?).bind (fun w => evGet w "_contract_address"))
    if jsTruthy addr then addr else none
  else none

/-- **C5.** `create_pair` handling: (1) an event whose trimmed contract
address differs from the factory is not honored; for an honored event,
with `R` the first factory `register` sibling's `pair_contract_addr` and
`I` the last `instantiate` event's contract address: (2) a truthy `R` is
used, (3) otherwise a truthy `I` is used, (4) otherwise the event is
dropped and no pool row is written. -/
theorem create_pair_resolution (factory : String)
    (wasms insts : List (List (String × String)))
    (cp : List (String × String)) (R I : Option String)
    (hRdef : R = (wasms.find? (fun w =>
      (evGet w "action" == some "register")
        && (evGet w "_contract_address" == some factory))).bind
      (fun w => evGet w "pair_contract_addr"))
    (hIdef : I = (insts.getLast?).bind (fun w => evGet w "_contract_address")) :
    (jsTrim ((evGet cp "_contract_address").getD "") ≠ factory →
      createPairPoolAddr factory wasms insts cp = none)
    ∧ (jsTrim ((evGet cp "_contract_address").getD "") = factory →
      (jsTruthy R = true → createPairPoolAddr factory wasms insts cp = R)
      ∧ (jsTruthy R = false → jsTruthy I = true →
          createPairPoolAddr factory wasms insts cp = I)
      ∧ (jsTruthy R = false → jsTruthy I = false →
          createPairPoolAddr factory wasms insts cp = none)) := by
  subst hRdef
  subst hIdef
  set R := (wasms.find? (fun w =>
    (evGet w "action" == some "register")
      && (evGet w "_contract_address" == some factory))).bind
    (fun w => evGet w "pair_contract_addr") with hR'
  set I := (insts.getLast?).bind (fun w => evGet w "_contract_address") with hI'
  refine ⟨fun h => ?_, fun h => ⟨fun hR => ?_, fun hR hI => ?_, fun hR hI => ?_⟩⟩
  · rw [createPairPoolAddr, if_neg h]
  · rw [createPairPoolAddr, if_pos h]
    show (if jsTruthy (jsOr R I) then jsOr R I else none) = R
    have hOr : jsOr R I = R := by rw [jsOr, if_pos hR]
    rw [hOr, if_pos hR]
  · rw [createPairPoolAddr, if_pos h]
    show (if jsTruthy (jsOr R I) then jsOr R I else none) = I
    have hOr : jsOr R I = I := by
      rw [jsOr]
      exact if_neg (by simp [hR])
    rw [hOr, if_pos hI]
  · rw [createPairPoolAddr, if_pos h]
    show (if jsTruthy (jsOr R I) then jsOr R I else none) = none
    have hOr : jsOr R I = I := by
      rw [jsOr]
      exact if_neg (by simp [hR])
    rw [hOr]
    exact if_neg (by simp [hI])

/-- **C5 (witness).** Resolution at a concrete transaction: the factory
matches after trimming, a factory `register` sibling carries the pool
address `P`, so `P` wins over the `instantiate` fallback `Q`. -/
theorem create_pair_resolution_witness :
    createPairPoolAddr "F"
        [[("action", "register"), ("_contract_address", "F"),
          ("pair_contract_addr", "P")]]
        [[("_contract_address", "Q")]]
        [("_contract_address", " F ")]
      = some "P" := by
  have h := (create_pair_resolution "F"
      [[("action", "register"), ("_contract_address", "F"),
        ("pair_contract_addr", "P")]]
      [[("_contract_address", "Q")]]
      [("_contract_address", " F ")]
      (some "P") (some "Q") (by decide) (by decide)).2 (by decide)
  exact h.1 (by decide)

/-! ## Backpressure flushing (core/block-processor.js, lines 237–240) — claim C6

Per transaction, the extraction loop appends that transaction's tasks and
then — once per transaction, not per task — flushes the whole pending list
(`tasks.splice(0)`) if it has reached `MAX_PENDING_TASKS`.  The model
tracks, per transaction, the pending count reached when the flush check
runs, the post-check pending count, and the number of flushes. -/

/-- Scheduler state across transactions of one height. -/
structure BpState where
  pending : ℕ
  flushes : ℕ
deriving DecidableEq, Repr

/-- One transaction: queue its `k` tasks, then flush everything if the
pending count has reached the threshold. -/
def bpStep (threshold : ℕ) (st : BpState) (k : ℕ) : BpState :=
  if threshold ≤ st.pending + k then
    { pending := 0, flushes := st.flushes + 1 }
  else
    { pending := st.pending + k, flushes := st.flushes }

/-- The extraction loop over a block's transactions (each entry the number
of tasks that transaction queues). -/
def bpRun (threshold : ℕ) (txTasks : List ℕ) : BpState :=
  txTasks.foldl (bpStep threshold) { pending := 0, flushes := 0 }

/-- The pending count at each flush-check instant (right after a
transaction's tasks were queued, before the flush decision). -/
def bpPeaks (threshold : ℕ) (txTasks : List ℕ) : List ℕ :=
  (txTasks.foldl
    (fun (st : BpState × List ℕ) k =>
      (bpStep threshold st.1 k, st.2 ++ [st.1.pending + k]))
    ({ pending := 0, flushes := 0 }, [])).2

/-- After any run starting below the threshold, the post-flush-check
pending count stays below the threshold. -/
theorem bp_pending_lt (T : ℕ) (hT : 0 < T) :
    ∀ (l : List ℕ) (st : BpState), st.pending < T →
      (l.foldl (bpStep T) st).pending < T := by
  intro l
  induction l with
  | nil => intro st h; exact h
  | cons k rest ih =>
    intro st h
    simp only [List.foldl_cons]
    apply ih
    rw [bpStep]
    by_cases hc : T ≤ st.pending + k
    · rw [if_pos hc]; exact hT
    · rw [if_neg hc]
      show st.pending + k < T
      omega

/-- The flush counter never decreases. -/
theorem bp_flushes_mono (T : ℕ) :
    ∀ (l : List ℕ) (st : BpState), st.flushes ≤ (l.foldl (bpStep T) st).flushes := by
  intro l
  induction l with
  | nil => intro st; exact le_refl _
  | cons k rest ih =>
    intro st
    simp only [List.foldl_cons]
    refine le_trans ?_ (ih (bpStep T st k))
    rw [bpStep]
    by_cases hc : T ≤ st.pending + k
    · rw [if_pos hc]
      show st.flushes ≤ st.flushes + 1
      omega
    · rw [if_neg hc]

/-- A run that never flushed accumulated every queued task. -/
theorem bp_noflush_sum (T : ℕ) :
    ∀ (l : List ℕ) (st : BpState),
      (l.foldl (bpStep T) st).flushes = st.flushes →
      (l.foldl (bpStep T) st).pending = st.pending + l.sum := by
  intro l
  induction l with
  | nil => intro st _; simp
  | cons k rest ih =>
    intro st hfl
    simp only [List.foldl_cons] at hfl ⊢
    by_cases hc : T ≤ st.pending + k
    · exfalso
      have hstep : (bpStep T st k).flushes = st.flushes + 1 := by
        rw [bpStep, if_pos hc]
      have := bp_flushes_mono T rest (bpStep T st k)
      omega
    · have hstep : bpStep T st k = { pending := st.pending + k, flushes := st.flushes } := by
        rw [bpStep, if_neg hc]
      rw [hstep] at hfl ⊢
      rw [ih _ hfl]
      simp
      omega

/-- **C6 (counterexample).** The claim's invariant fails: with a flush
threshold of 2 and a single transaction queuing 3 tasks, the pending
count is 3 > 2 at the flush-check instant — the check runs once per
transaction, after all of that transaction's tasks were queued, so the
enqueued-but-unflushed count exceeds the threshold mid-extraction. -/
theorem backpressure_peak_cex :
    bpPeaks 2 [3] = [3] ∧ 2 < 3 ∧ (bpRun 2 [3]).flushes = 1 := by
  refine ⟨rfl, by omega, rfl⟩

/-- **C6 (amended).** Backpressure at transaction granularity: after each
transaction's flush check the pending count is strictly below the
threshold (so it never exceeds threshold plus the current transaction's
own task count), and a height whose total task count reaches the
threshold flushes at least once before extraction completes. -/
theorem backpressure_bounded (T : ℕ) (txTasks : List ℕ) (hT : 0 < T) :
    (∀ pre suf, txTasks = pre ++ suf → (bpRun T pre).pending < T)
    ∧ (T ≤ txTasks.sum → 1 ≤ (bpRun T txTasks).flushes)
    ∧ (∀ pre k suf, txTasks = pre ++ k :: suf →
        (bpRun T pre).pending + k < T + k) := by
  have hA : ∀ (l : List ℕ), (bpRun T l).pending < T := by
    intro l
    exact bp_pending_lt T hT l _ hT
  refine ⟨fun pre _ _ => hA pre, ?_, fun pre k _ _ => by have := hA pre; omega⟩
  intro hsum
  by_contra hfl
  have h0 : (bpRun T txTasks).flushes = 0 := by omega
  have hsum' := bp_noflush_sum T txTasks { pending := 0, flushes := 0 } h0
  have h2 := hA txTasks
  rw [bpRun] at h2
  omega

/-- **C6 (witness).** The amended theorem at threshold 2 over three
single-task transactions: the prefix pending count stays below 2 and at
least one flush happens. -/
theorem backpressure_bounded_witness :
    (bpRun 2 [1, 1]).pending < 2 ∧ 1 ≤ (bpRun 2 [1, 1, 1]).flushes :=
  ⟨(backpressure_bounded 2 [1, 1, 1] (by decide)).1 [1, 1] [1] rfl,
   (backpressure_bounded 2 [1, 1, 1] (by decide)).2.1 (by decide)⟩

/-! ## Pool-directory cache `getPoolCached` (core/block-processor.js,
lines 42–48) — claim C8

The cache is the `poolsByContract` map (here an association list), the
storage read is `poolWithTokens` (a parameter); the call returns the
looked-up pool and the possibly-extended cache. -/

/-- `getPoolCached`: falsy address → null; cache hit → cached value;
otherwise read storage and memoize only a non-null result. -/
def getPoolCached (cache : List (String × Pool))
    (storage : String → Option Pool) (addr : Option String) :
    Option Pool × List (String × Pool) :=
  if jsTruthy addr then
    let a := addr.getD ""
    match cache.lookup a with
    | some p => (some p, cache)
    | none =>
      match storage a with
      | some p => (some p, (a, p) :: cache)
      | none => (none, cache)
  else (none, cache)

/-- **C8.** The pool cache never memoizes a failed lookup: a miss whose
storage read returns null leaves the cache unchanged and returns null; a
miss whose storage read succeeds returns the pool and memoizes it; hence a
later call for the same address performs a fresh storage read and succeeds
once the pool exists.  In general the cache after any call is either
unchanged or extended by exactly the pool that storage returned. -/
theorem pool_cache_no_negative_memo (cache : List (String × Pool))
    (storage storage' : String → Option Pool) (addr : String)
    (haddr : addr ≠ "") :
    (cache.lookup addr = none → storage addr = none →
      getPoolCached cache storage (some addr) = (none, cache))
    ∧ (∀ p, cache.lookup addr = none → storage' addr = some p →
      getPoolCached cache storage' (some addr) = (some p, (addr, p) :: cache))
    ∧ (∀ p, cache.lookup addr = none → storage addr = none →
        storage' addr = some p →
      getPoolCached (getPoolCached cache storage (some addr)).2 storage'
          (some addr) = (some p, (addr, p) :: cache))
    ∧ (∀ (st : String → Option Pool) (a : Option String),
        (getPoolCached cache st a).2 = cache
        ∨ ∃ q a', a = some a' ∧ st a' = some q
            ∧ (getPoolCached cache st a).2 = (a', q) :: cache) := by
  have htru : jsTruthy (some addr) = true := by simp [jsTruthy, haddr]
  have hfirst : ∀ (st : String → Option Pool),
      cache.lookup addr = none → st addr = none →
      getPoolCached cache st (some addr) = (none, cache) := by
    intro st hmiss hnone
    rw [getPoolCached, if_pos htru]
    simp only [Option.getD_some, hmiss, hnone]
  have hsecond : ∀ (st : String → Option Pool) p,
      cache.lookup addr = none → st addr = some p →
      getPoolCached cache st (some addr) = (some p, (addr, p) :: cache) := by
    intro st p hmiss hsome
    rw [getPoolCached, if_pos htru]
    simp only [Option.getD_some, hmiss, hsome]
  refine ⟨hfirst storage, fun p => hsecond storage' p, ?_, ?_⟩
  · intro p hmiss hnone hsome
    rw [hfirst storage hmiss hnone]
    exact hsecond storage' p hmiss hsome
  · intro st a
    rw [getPoolCached]
    by_cases ht : jsTruthy a = true
    · rw [if_pos ht]
      rcases hc : cache.lookup (a.getD "") with _ | p
      · rcases hs : st (a.getD "") with _ | q
        · left
          simp [hc, hs]
        · right
          refine ⟨q, a.getD "", ?_, hs, by simp [hc, hs]⟩
          cases a with
          | none => rw [jsTruthy] at ht; simp at ht
          | some x => rfl
      · left
        simp [hc]
    · rw [if_neg ht]
      left
      rfl

/-- Concrete pool record for the C8 witness. -/
def c8Pool : Pool :=
  { pool_id := 3, base_denom := "b", quote_denom := "uzig",
    base_exp := 0, quote_exp := 6, is_uzig_quote := true }

/-- Storage before the pool exists. -/
def c8Storage0 : String → Option Pool := fun _ => none

/-- Storage after the pool exists. -/
def c8Storage1 : String → Option Pool :=
  fun a => if a = "p1" then some c8Pool else none

/-- **C8 (witness).** A miss for a not-yet-known pool returns null and
leaves the cache empty; the retry against the updated storage succeeds and
memoizes the pool. -/
theorem pool_cache_no_negative_memo_witness :
    getPoolCached [] c8Storage0 (some "p1") = (none, [])
    ∧ getPoolCached (getPoolCached [] c8Storage0 (some "p1")).2 c8Storage1
        (some "p1") = (some c8Pool, [("p1", c8Pool)]) :=
  ⟨(pool_cache_no_negative_memo [] c8Storage0 c8Storage1 "p1"
      (by decide)).1 rfl rfl,
   (pool_cache_no_negative_memo [] c8Storage0 c8Storage1 "p1"
      (by decide)).2.2.1 c8Pool rfl rfl rfl⟩

/-! ## Holders-refresher page transaction (jobs/holders-refresher.js,
lines 36–66) — claim C10

One page of `refreshHoldersOnce`: `BEGIN`, per holder an upsert into
`holders` and an insert-or-ignore into `wallets`, then `COMMIT`; on any
statement failure `ROLLBACK` and rethrow.  The database is a pair of
tables, the client session carries the committed state plus an optional
open-transaction working state; statement failure is injected by an oracle
indexed by a running statement counter. -/

/-- The two tables the page block touches. -/
structure HoldersDb where
  holders : List ((ℕ × String) × Option String)
  wallets : List String
deriving DecidableEq, Repr

/-- A statement of the page block. -/
inductive HStmt where
  | upHolder (tok : ℕ) (addr : String) (bal : Option String)
  | upWallet (addr : String)
deriving DecidableEq, Repr

/-- `INSERT … ON CONFLICT (token_id,address) DO UPDATE SET balance_base`:
overwrite on conflict, append otherwise. -/
def upsertAssoc (l : List ((ℕ × String) × Option String)) (k : ℕ × String)
    (v : Option String) : List ((ℕ × String) × Option String) :=
  if (l.lookup k).isSome then
    l.map (fun kv => if kv.1 = k then (k, v) else kv)
  else l ++ [(k, v)]

/-- Pure row-level semantics of one statement. -/
def applyStmt (db : HoldersDb) : HStmt → HoldersDb
  | .upHolder tok addr bal =>
    { db with holders := upsertAssoc db.holders (tok, addr) bal }
  | .upWallet addr =>
    { db with wallets :=
        if addr ∈ db.wallets then db.wallets else db.wallets ++ [addr] }

/-- A client session: committed state plus the open transaction's working
state, if any. -/
structure Session where
  committed : HoldersDb
  work : Option HoldersDb
deriving DecidableEq, Repr

/-- The statements of one page: per holder item (address, raw amount), an
upsert with the digit-validated balance, then the wallet
insert-or-ignore. -/
def pageStmts (tok : ℕ) (items : List (String × String)) : List HStmt :=
  items.flatMap (fun it =>
    [HStmt.upHolder tok it.1 (digitsOrNull (some it.2)), HStmt.upWallet it.1])

/-- Run statements inside the open transaction; the oracle decides which
statement (by running counter) fails, and a failure aborts with its
counter as the error. -/
def execStmts (fail : ℕ → Bool) : List HStmt → ℕ → HoldersDb →
    Except ℕ HoldersDb
  | [], _, db => .ok db
  | q :: qs, ctr, db =>
    if fail ctr then .error ctr
    else execStmts fail qs (ctr + 1) (applyStmt db q)

/-- The page block of `refreshHoldersOnce`: `BEGIN`; run the page's
statements on the working copy; `COMMIT` publishes it, while a failure
triggers `ROLLBACK` (committed state untouched) and rethrows the error. -/
def runPage (fail : ℕ → Bool) (db : HoldersDb) (tok : ℕ)
    (items : List (String × String)) (ctr : ℕ) : Option ℕ × Session :=
  match execStmts fail (pageStmts tok items) ctr db with
  | .ok db' => (none, { committed := db', work := none })
  | .error e => (some e, { committed := db, work := none })

/-- A successful run applied every statement in order. -/
theorem execStmts_ok_eq (fail : ℕ → Bool) :
    ∀ (qs : List HStmt) (ctr : ℕ) (db db' : HoldersDb),
      execStmts fail qs ctr db = .ok db' → db' = qs.foldl applyStmt db := by
  intro qs
  induction qs with
  | nil =>
    intro ctr db db' hok
    simp only [execStmts] at hok
    cases hok
    rfl
  | cons q rest ih =>
    intro ctr db db' hok
    simp only [execStmts] at hok
    by_cases hf : fail ctr = true
    · rw [if_pos hf] at hok
      cases hok
    · rw [if_neg hf] at hok
      simpa using ih (ctr + 1) (applyStmt db q) db' hok

/-- If no statement of the window fails, execution succeeds. -/
theorem execStmts_no_failure (fail : ℕ → Bool) :
    ∀ (qs : List HStmt) (ctr : ℕ) (db : HoldersDb),
      (∀ k, k < qs.length → fail (ctr + k) = false) →
      execStmts fail qs ctr db = .ok (qs.foldl applyStmt db) := by
  intro qs
  induction qs with
  | nil => intro ctr db _; rfl
  | cons q rest ih =>
    intro ctr db hnf
    have h0 : fail ctr = false := by simpa using hnf 0 (by simp)
    simp only [execStmts, h0, Bool.false_eq_true, if_false, List.foldl_cons]
    apply ih
    intro k hk
    have := hnf (k + 1) (by simpa using Nat.succ_lt_succ hk)
    rw [← this]
    congr 1
    omega

/-- If some statement of the window fails, execution errors. -/
theorem execStmts_some_failure (fail : ℕ → Bool) :
    ∀ (qs : List HStmt) (ctr : ℕ) (db : HoldersDb) (k : ℕ),
      k < qs.length → fail (ctr + k) = true →
      ∃ e, execStmts fail qs ctr db = .error e := by
  intro qs
  induction qs with
  | nil => intro ctr db k hk _; simp at hk
  | cons q rest ih =>
    intro ctr db k hk hf
    by_cases h0 : fail ctr = true
    · exact ⟨ctr, by simp [execStmts, h0]⟩
    · rcases k with _ | k'
      · simp at hf
        rw [hf] at h0
        simp at h0
      · have : fail (ctr + 1 + k') = true := by
          rw [← hf]
          congr 1
          omega
        obtain ⟨e, he⟩ := ih (ctr + 1) (applyStmt db q) k'
          (by simpa using Nat.lt_of_succ_lt_succ hk) this
        exact ⟨e, by simp [execStmts, h0, he]⟩

/-- **C10.** Each page of holder upserts is transactional: if any
statement of the page fails, the session ends with the committed state
exactly as before the page (every holder and wallet row unchanged) and the
error propagates; if no statement fails, no error is reported and the
committed state is all of the page's statements applied in order. -/
theorem holders_page_transactional (fail : ℕ → Bool) (db : HoldersDb)
    (tok : ℕ) (items : List (String × String)) (ctr : ℕ) :
    (∀ e, (runPage fail db tok items ctr).1 = some e →
      (runPage fail db tok items ctr).2 = { committed := db, work := none })
    ∧ ((runPage fail db tok items ctr).1 = none →
      (runPage fail db tok items ctr).2
        = { committed := (pageStmts tok items).foldl applyStmt db,
            work := none })
    ∧ ((∀ k, k < (pageStmts tok items).length → fail (ctr + k) = false) →
      (runPage fail db tok items ctr).1 = none)
    ∧ (∀ k, k < (pageStmts tok items).length → fail (ctr + k) = true →
      ∃ e, (runPage fail db tok items ctr).1 = some e) := by
  refine ⟨?_, ?_, ?_, ?_⟩
  · intro e he
    rcases hexec : execStmts fail (pageStmts tok items) ctr db with e' | db'
    · rw [runPage, hexec]
    · rw [runPage, hexec] at he
      simp at he
  · intro hnone
    rcases hexec : execStmts fail (pageStmts tok items) ctr db with e' | db'
    · rw [runPage, hexec] at hnone
      simp at hnone
    · rw [runPage, hexec]
      rw [execStmts_ok_eq fail _ ctr db db' hexec]
  · intro hnf
    rw [runPage, execStmts_no_failure fail _ ctr db hnf]
  · intro k hk hf
    obtain ⟨e, he⟩ := execStmts_some_failure fail (pageStmts tok items)
      ctr db k hk hf
    exact ⟨e, by rw [runPage, he]⟩

/-- Failure oracle for the C10 witness: the statement with counter 2 (the
second item's holder upsert) fails. -/
def c10Fail : ℕ → Bool := fun c => c = 2

/-- Initial database for the C10 witness. -/
def c10Db : HoldersDb :=
  { holders := [((1, "alice"), some "3")], wallets := ["alice"] }

/-- **C10 (witness).** A page whose third statement fails leaves the
committed holders and wallets exactly as before the page. -/
theorem holders_page_transactional_witness :
    (runPage c10Fail c10Db 1 [("alice", "10"), ("bob", "7")] 0).2
      = { committed := c10Db, work := none } :=
  (holders_page_transactional c10Fail c10Db 1 [("alice", "10"), ("bob", "7")]
    0).1 2 (by decide)

/-! ## `runWithConcurrency` (core/block-processor.js, lines 21–36) — claim C7

`Array(Math.min(limit, tasks.length))` workers race on a shared index
`i`; each worker claims `idx = i++`, runs task `idx`, and stores its value
— or, on a throw, the error itself — at `results[idx]`.  Claiming is
atomic (single-threaded between awaits), only the completion order varies.
The model: each task's outcome is an `E ⊕ A` (thrown error or value); a
machine state holds the shared counter, each worker's claimed index, and
the results array (a function, `none` for unwritten slots); a schedule
lists which worker steps next — an idle worker claims the next index if
any, a busy worker completes its task and writes its outcome.  The claim
is settled for every schedule that drains the machine. -/

/-- Worker-pool machine state. -/
structure RunState (E A : Type) where
  next : ℕ
  workers : List (Option ℕ)
  results : ℕ → Option (E ⊕ A)

/-- One scheduling step: worker `w` either finishes its claimed task
(writing `results[idx]` with task `idx`'s outcome — a value or the caught
error) or claims the next index; a worker beyond the pool, or an idle
worker with no tasks left, does nothing. -/
def rwStep {E A : Type} (outcomes : List (E ⊕ A)) (s : RunState E A)
    (w : ℕ) : RunState E A :=
  match s.workers[w]? with
  | some (some idx) =>
    { s with workers := s.workers.set w none,
             results := Function.update s.results idx outcomes[idx]? }
  | some none =>
    if s.next < outcomes.length then
      { s with workers := s.workers.set w (some s.next), next := s.next + 1 }
    else s
  | none => s

/-- Initial machine state: index 0, `W` idle workers, nothing written. -/
def rwInit (E A : Type) (W : ℕ) : RunState E A :=
  { next := 0, workers := List.replicate W none, results := fun _ => none }

/-- Run `runWithConcurrency` outcomes under a schedule, with the source's
worker count `min limit n`. -/
def rwRun {E A : Type} (outcomes : List (E ⊕ A)) (limit : ℕ)
    (sched : List ℕ) : RunState E A :=
  sched.foldl (rwStep outcomes) (rwInit E A (min limit outcomes.length))

/-- The machine is drained: every index claimed and every worker idle
(this is when `Promise.all(workers)` resolves). -/
def rwComplete {E A : Type} (outcomes : List (E ⊕ A))
    (s : RunState E A) : Bool :=
  (s.next == outcomes.length) && s.workers.all (fun w => w.isNone)

/-- A schedule that certainly drains the machine: worker 0 alone claims
and completes every task. -/
def canonSched (n : ℕ) : List ℕ :=
  List.replicate (2 * n) 0

/-- `getElem?` after `set` at the same index. -/
theorem getq_set_self {α : Type} (l : List α) (i : ℕ) (a : α)
    (h : i < l.length) : (l.set i a)[i]? = some a := by
  induction l generalizing i with
  | nil => simp at h
  | cons x xs ih =>
    cases i with
    | zero => simp
    | succ i' =>
      simp only [List.set_cons_succ, List.getElem?_cons_succ]
      exact ih i' (by simpa using Nat.lt_of_succ_lt_succ h)

/-- `getElem?` after `set` at a different index. -/
theorem getq_set_ne {α : Type} (l : List α) (i j : ℕ) (a : α)
    (h : i ≠ j) : (l.set i a)[j]? = l[j]? := by
  induction l generalizing i j with
  | nil => simp
  | cons x xs ih =>
    cases i with
    | zero =>
      cases j with
      | zero => exact absurd rfl h
      | succ j' => simp
    | succ i' =>
      cases j with
      | zero => simp
      | succ j' =>
        simp only [List.set_cons_succ, List.getElem?_cons_succ]
        exact ih i' j' (fun hc => h (by rw [hc]))

/-- All-idle replica pool. -/
theorem replicate_all_isNone (W : ℕ) :
    (List.replicate W (none : Option ℕ)).all (fun w => w.isNone) = true := by
  induction W with
  | zero => rfl
  | succ W' ih => simpa [List.replicate_succ] using ih

/-- Setting slot 0 of an all-idle pool back to idle changes nothing. -/
theorem set_zero_none_replicate (W : ℕ) :
    (List.replicate W (none : Option ℕ)).set 0 none
      = List.replicate W none := by
  cases W with
  | zero => rfl
  | succ W' => rfl

/-- The machine invariant: the counter never passes the task count; every
claimed index is below the counter and claimed by exactly one worker; a
slot is written (with that task's outcome) exactly when its index was
claimed and released. -/
def Inv {E A : Type} (outcomes : List (E ⊕ A)) (s : RunState E A) : Prop :=
  s.next ≤ outcomes.length
  ∧ (∀ (w i : ℕ), s.workers[w]? = some (some i) → i < s.next)
  ∧ (∀ (w w' i : ℕ), s.workers[w]? = some (some i) →
      s.workers[w']? = some (some i) → w = w')
  ∧ (∀ (i : ℕ), i < s.next → (∀ (w : ℕ), s.workers[w]? ≠ some (some i)) →
      s.results i = outcomes[i]?)
  ∧ (∀ (i : ℕ), s.next ≤ i → s.results i = none)
  ∧ (∀ (w i : ℕ), s.workers[w]? = some (some i) → s.results i = none)

/-- The initial state satisfies the invariant. -/
theorem inv_init {E A : Type} (outcomes : List (E ⊕ A)) (W : ℕ) :
    Inv outcomes (rwInit E A W) := by
  have hnoclaim : ∀ (w i : ℕ), (rwInit E A W).workers[w]? ≠ some (some i) := by
    intro w i hw
    have hmem : (some i : Option ℕ) ∈ (rwInit E A W).workers :=
      List.getElem?_mem hw
    have heq : (some i : Option ℕ) = none := List.eq_of_mem_replicate hmem
    cases heq
  refine ⟨Nat.zero_le _, ?_, ?_, ?_, fun _ _ => rfl, ?_⟩
  · intro w i hw
    exact absurd hw (hnoclaim w i)
  · intro w w' i hw _
    exact absurd hw (hnoclaim w i)
  · intro i hi
    simp [rwInit] at hi
  · intro w i hw
    exact absurd hw (hnoclaim w i)

/-- One scheduling step preserves the invariant. -/
theorem inv_step {E A : Type} (outcomes : List (E ⊕ A)) (s : RunState E A)
    (w : ℕ) (h : Inv outcomes s) : Inv outcomes (rwStep outcomes s w) := by
  obtain ⟨h1, h2, h3, h4, h5, h6⟩ := h
  rw [rwStep]
  rcases hw : s.workers[w]? with _ | x
  · exact ⟨h1, h2, h3, h4, h5, h6⟩
  rcases x with _ | idx
  · -- idle worker: claim the next index if any
    dsimp only
    by_cases hn : s.next < outcomes.length
    · rw [if_pos hn]
      have hwlt : w < s.workers.length := by
        by_contra hge
        rw [List.getElem?_eq_none (by omega)] at hw
        cases hw
      refine ⟨?_, ?_, ?_, ?_, ?_, ?_⟩
      · show s.next + 1 ≤ outcomes.length
        omega
      · show ∀ (w' i : ℕ),
          (s.workers.set w (some s.next))[w']? = some (some i) →
            i < s.next + 1
        intro w' i hw'
        by_cases hww : w = w'
        · subst hww
          rw [getq_set_self _ _ _ hwlt] at hw'
          cases hw'
          omega
        · rw [getq_set_ne _ _ _ _ hww] at hw'
          have := h2 w' i hw'
          omega
      · show ∀ (w1 w2 i : ℕ),
          (s.workers.set w (some s.next))[w1]? = some (some i) →
            (s.workers.set w (some s.next))[w2]? = some (some i) → w1 = w2
        intro w1 w2 i hw1 hw2
        by_cases hww1 : w = w1
        · subst hww1
          rw [getq_set_self _ _ _ hwlt] at hw1
          cases hw1
          by_cases hww2 : w = w2
          · exact hww2
          · rw [getq_set_ne _ _ _ _ hww2] at hw2
            have := h2 w2 _ hw2
            omega
        · rw [getq_set_ne _ _ _ _ hww1] at hw1
          by_cases hww2 : w = w2
          · subst hww2
            rw [getq_set_self _ _ _ hwlt] at hw2
            cases hw2
            have := h2 w1 _ hw1
            omega
          · rw [getq_set_ne _ _ _ _ hww2] at hw2
            exact h3 w1 w2 i hw1 hw2
      · show ∀ (i : ℕ), i < s.next + 1 →
          (∀ (w' : ℕ), (s.workers.set w (some s.next))[w']? ≠ some (some i)) →
            s.results i = outcomes[i]?
        intro i hi hnone
        have hine : i ≠ s.next := by
          intro hc
          exact hnone w (by rw [hc, getq_set_self _ _ _ hwlt])
        apply h4 i (by omega)
        intro w' hc
        by_cases hww : w = w'
        · subst hww
          rw [hw] at hc
          cases hc
        · exact hnone w' (by rw [getq_set_ne _ _ _ _ hww]; exact hc)
      · show ∀ (i : ℕ), s.next + 1 ≤ i → s.results i = none
        intro i hi
        exact h5 i (by omega)
      · show ∀ (w' i : ℕ),
          (s.workers.set w (some s.next))[w']? = some (some i) →
            s.results i = none
        intro w' i hw'
        by_cases hww : w = w'
        · subst hww
          rw [getq_set_self _ _ _ hwlt] at hw'
          cases hw'
          exact h5 _ (le_refl _)
        · rw [getq_set_ne _ _ _ _ hww] at hw'
          exact h6 w' i hw'
    · rw [if_neg hn]
      exact ⟨h1, h2, h3, h4, h5, h6⟩
  · -- busy worker: write the outcome, release the slot
    dsimp only
    have hwlt : w < s.workers.length := by
      by_contra hge
      rw [List.getElem?_eq_none (by omega)] at hw
      cases hw
    have hidx : idx < s.next := h2 w idx hw
    refine ⟨h1, ?_, ?_, ?_, ?_, ?_⟩
    · show ∀ (w' i : ℕ),
        (s.workers.set w none)[w']? = some (some i) → i < s.next
      intro w' i hw'
      by_cases hww : w = w'
      · subst hww
        rw [getq_set_self _ _ _ hwlt] at hw'
        cases hw'
      · rw [getq_set_ne _ _ _ _ hww] at hw'
        exact h2 w' i hw'
    · show ∀ (w1 w2 i : ℕ),
        (s.workers.set w none)[w1]? = some (some i) →
          (s.workers.set w none)[w2]? = some (some i) → w1 = w2
      intro w1 w2 i hw1 hw2
      by_cases hww1 : w = w1
      · subst hww1
        rw [getq_set_self _ _ _ hwlt] at hw1
        cases hw1
      · rw [getq_set_ne _ _ _ _ hww1] at hw1
        by_cases hww2 : w = w2
        · subst hww2
          rw [getq_set_self _ _ _ hwlt] at hw2
          cases hw2
        · rw [getq_set_ne _ _ _ _ hww2] at hw2
          exact h3 w1 w2 i hw1 hw2
    · show ∀ (i : ℕ), i < s.next →
        (∀ (w' : ℕ), (s.workers.set w none)[w']? ≠ some (some i)) →
          Function.update s.results idx outcomes[idx]? i = outcomes[i]?
      intro i hi hnone
      by_cases hii : i = idx
      · subst hii
        simp [Function.update_same]
      · rw [Function.update_noteq hii]
        apply h4 i hi
        intro w' hc
        by_cases hww : w = w'
        · subst hww
          rw [hw] at hc
          cases hc
          exact hii rfl
        · exact hnone w' (by rw [getq_set_ne _ _ _ _ hww]; exact hc)
    · show ∀ (i : ℕ), s.next ≤ i →
        Function.update s.results idx outcomes[idx]? i = none
      intro i hi
      have hii : i ≠ idx := by omega
      rw [Function.update_noteq hii]
      exact h5 i hi
    · show ∀ (w' i : ℕ),
        (s.workers.set w none)[w']? = some (some i) →
          Function.update s.results idx outcomes[idx]? i = none
      intro w' i hw'
      by_cases hww : w = w'
      · subst hww
        rw [getq_set_self _ _ _ hwlt] at hw'
        cases hw'
      · rw [getq_set_ne _ _ _ _ hww] at hw'
        have hii : i ≠ idx := by
          intro hc
          subst hc
          exact hww (h3 w' w i hw' hw).symm
        rw [Function.update_noteq hii]
        exact h6 w' i hw'

/-- The invariant holds after any schedule. -/
theorem inv_foldl {E A : Type} (outcomes : List (E ⊕ A)) :
    ∀ (sched : List ℕ) (s : RunState E A), Inv outcomes s →
      Inv outcomes (sched.foldl (rwStep outcomes) s) := by
  intro sched
  induction sched with
  | nil => intro s h; exact h
  | cons w rest ih =>
    intro s h
    exact ih _ (inv_step outcomes s w h)

/-- A drained machine satisfying the invariant holds exactly the
positional outcomes. -/
theorem complete_results {E A : Type} (outcomes : List (E ⊕ A))
    (s : RunState E A) (hinv : Inv outcomes s)
    (hc : rwComplete outcomes s = true) :
    ∀ i, s.results i = outcomes[i]? := by
  obtain ⟨h1, h2, h3, h4, h5, h6⟩ := hinv
  rw [rwComplete, Bool.and_eq_true] at hc
  have hnext : s.next = outcomes.length := by
    have := hc.1
    simpa using this
  have hnoclaim : ∀ (w i : ℕ), s.workers[w]? ≠ some (some i) := by
    intro w i hcl
    have hmem : (some i : Option ℕ) ∈ s.workers := List.getElem?_mem hcl
    have := (List.all_eq_true.mp hc.2) _ hmem
    simp at this
  intro i
  by_cases hi : i < outcomes.length
  · exact h4 i (by omega) (hnoclaim · i)
  · rw [h5 i (by omega), List.getElem?_eq_none (by omega)]

/-- Worker 0 alone drains any machine state whose pool is all idle. -/
theorem canon_completes {E A : Type} (outcomes : List (E ⊕ A)) (W : ℕ)
    (hW : 1 ≤ W) :
    ∀ (r next : ℕ) (res : ℕ → Option (E ⊕ A)),
      next ≤ outcomes.length → outcomes.length - next = r →
      rwComplete outcomes
        ((List.replicate (2 * r) 0).foldl (rwStep outcomes)
          { next := next, workers := List.replicate W none, results := res })
        = true := by
  intro r
  induction r with
  | zero =>
    intro next res hle hr
    have hn : next = outcomes.length := by omega
    rw [Nat.mul_zero, List.replicate, List.foldl_nil, rwComplete]
    rw [Bool.and_eq_true]
    exact ⟨by simp [hn], replicate_all_isNone W⟩
  | succ r' ih =>
    intro next res hle hr
    have hnx : next < outcomes.length := by omega
    have hrep : List.replicate (2 * (r' + 1)) (0 : ℕ)
        = 0 :: 0 :: List.replicate (2 * r') 0 := by
      have : 2 * (r' + 1) = (2 * r') + 1 + 1 := by ring
      rw [this, List.replicate_succ, List.replicate_succ]
    rw [hrep, List.foldl_cons, List.foldl_cons]
    have hget0 : (List.replicate W (none : Option ℕ))[0]? = some none := by
      have : (0 : ℕ) < W := hW
      simp [List.getElem?_replicate, this]
    have hstep1 : rwStep outcomes
        { next := next, workers := List.replicate W none, results := res } 0
        = { next := next + 1,
            workers := (List.replicate W none).set 0 (some next),
            results := res } := by
      rw [rwStep]
      simp only [hget0]
      rw [if_pos hnx]
    have hlen : (0 : ℕ) < (List.replicate W (none : Option ℕ)).length := by
      rw [List.length_replicate]
      omega
    have hstep2 : rwStep outcomes
        { next := next + 1,
          workers := (List.replicate W none).set 0 (some next),
          results := res } 0
        = { next := next + 1, workers := List.replicate W none,
            results := Function.update res next outcomes[next]? } := by
      rw [rwStep]
      dsimp only
      rw [getq_set_self _ _ _ hlen]
      dsimp only
      rw [List.set_set, set_zero_none_replicate]
    rw [hstep1, hstep2]
    exact ih (next + 1) _ (by omega) (by omega)

/-- **C7.** `runWithConcurrency` captures outcomes positionally and
failures never abort siblings: (1) the canonical single-worker schedule
drains the machine — in particular thrown errors never prevent the
remaining tasks from being claimed and run; (2) under every schedule that
drains the machine, slot `i` of the results holds exactly unit `i`'s
outcome — its returned value or the error it threw — and nothing beyond
the task count is written (so the results array has the input's length). -/
theorem runWithConcurrency_outcomes (E A : Type) (outcomes : List (E ⊕ A))
    (limit : ℕ) (hl : 1 ≤ limit) :
    rwComplete outcomes (rwRun outcomes limit (canonSched outcomes.length))
        = true
    ∧ ∀ sched, rwComplete outcomes (rwRun outcomes limit sched) = true →
        ∀ i, (rwRun outcomes limit sched).results i = outcomes[i]? := by
  constructor
  · rcases hn : outcomes.length with _ | m
    · rw [rwRun, canonSched, hn, Nat.mul_zero, List.replicate, List.foldl_nil,
        rwComplete, Bool.and_eq_true]
      refine ⟨by simp [rwInit, hn], ?_⟩
      rw [rwInit]
      exact replicate_all_isNone _
    · have hW : 1 ≤ min limit outcomes.length := by
        rw [hn]
        omega
      rw [rwRun, canonSched, rwInit]
      exact canon_completes outcomes (min limit outcomes.length) hW
        (m + 1) 0 _ (by omega) (by omega)
  · intro sched hc
    exact complete_results outcomes _
      (inv_foldl outcomes sched _ (inv_init outcomes _)) hc

/-- Concrete outcomes for the C7 witness: three units, the second of which
throws. -/
def c7Outcomes : List (String ⊕ ℕ) :=
  [Sum.inr 1, Sum.inl "boom", Sum.inr 2]

/-- **C7 (witness).** Two workers over three units, one of which throws:
the canonical schedule drains the machine and each result slot holds the
matching unit's value-or-error. -/
theorem runWithConcurrency_outcomes_witness :
    rwComplete c7Outcomes (rwRun c7Outcomes 2 (canonSched c7Outcomes.length))
        = true
    ∧ ∀ i, (rwRun c7Outcomes 2 (canonSched c7Outcomes.length)).results i
        = c7Outcomes[i]? :=
  ⟨(runWithConcurrency_outcomes String ℕ c7Outcomes 2 (by decide)).1,
   (runWithConcurrency_outcomes String ℕ c7Outcomes 2 (by decide)).2
     (canonSched c7Outcomes.length)
     (runWithConcurrency_outcomes String ℕ c7Outcomes 2 (by decide)).1⟩

end Degenter
